import Mathlib

/-!
Shallow embedding of the Meepo memory-virtualization simulator
(src/tmp.cpp and src/tmp6.cpp): the page-table / frame-table data model,
the MMU handlers (memory access, page fault, process exit), and the
replacement policies referenced by the claims (NRU, Clock, Random), with
the Working-Set pager's bookkeeping hooks instrumented on the machine.
The two source files are near-duplicates; where they differ (NRU reset
threshold, EXIT trace line) both variants are embedded.
-/

namespace Meepo

/-- Maximum number of virtual pages per process (`MAX_VPAGES` in the source). -/
def MAX_VPAGES : Nat := 64

/-- Page-table entry. In the source it is bit-packed into 32 bits; the
`frame` member is a 7-bit field, so stores into it are taken mod 128. -/
structure PTE where
  present : Bool
  referenced : Bool
  modified : Bool
  write_protect : Bool
  paged_out : Bool
  frame : Nat
  file_mapped : Bool
  initialized : Bool
deriving DecidableEq

/-- The PTE default constructor: all fields zero. -/
def PTE.init : PTE :=
  { present := false, referenced := false, modified := false, write_protect := false,
    paged_out := false, frame := 0, file_mapped := false, initialized := false }

/-- Frame-table entry: owning pid and vpage (ints, -1 when empty) and occupancy. -/
structure FTE where
  pid : Int
  vpage : Int
  occupied : Bool
deriving DecidableEq

/-- The FTE default constructor. -/
def FTE.empty : FTE := { pid := -1, vpage := -1, occupied := false }

/-- Virtual memory area: inclusive vpage range with permissions. -/
structure VMA where
  start_vpage : Nat
  end_vpage : Nat
  write_protect : Bool
  file_mapped : Bool
deriving DecidableEq

/-- Per-process statistics counters. -/
structure Stats where
  unmaps : Nat
  maps : Nat
  ins : Nat
  outs : Nat
  fins : Nat
  fouts : Nat
  zeros : Nat
  segv : Nat
  segprot : Nat
deriving DecidableEq

/-- All-zero statistics. -/
def Stats.zero : Stats := ⟨0, 0, 0, 0, 0, 0, 0, 0, 0⟩

/-- A process: its VMA list, page table and statistics. The page table is
modelled as a total function; only indices below `MAX_VPAGES` are used. -/
structure Proc where
  vmas : List VMA
  pageTable : Nat → PTE
  pstats : Stats

/-- Whether some VMA of the process covers `v` (`isPageInVMA` in tmp.cpp and
the `is_valid` bit of `vpage_infos` in tmp6.cpp; they agree). -/
def Proc.isValidVpage (p : Proc) (v : Nat) : Bool :=
  p.vmas.any (fun a => decide (a.start_vpage ≤ v) && decide (v ≤ a.end_vpage))

/-- The last VMA in declaration order covering `v`: tmp6.cpp precomputes
`vpage_infos` in `addVMA`, so a later VMA overwrites an earlier one. -/
def lastCover (vmas : List VMA) (v : Nat) : Option VMA :=
  vmas.foldl (fun acc a => if a.start_vpage ≤ v ∧ v ≤ a.end_vpage then some a else acc) none

/-- The `write_protect` bit recorded in `vpage_infos` for `v` (false if uncovered). -/
def Proc.infoWP (p : Proc) (v : Nat) : Bool :=
  (lastCover p.vmas v).elim false VMA.write_protect

/-- The `file_mapped` bit recorded in `vpage_infos` for `v` (false if uncovered). -/
def Proc.infoFM (p : Proc) (v : Nat) : Bool :=
  (lastCover p.vmas v).elim false VMA.file_mapped

/-- Trace events emitted with option O. `exitHdr` is tmp6.cpp's
`EXIT current process pid` line; `exitLine` is tmp.cpp's ` EXIT` line. -/
inductive Ev where
  | segv
  | segprot
  | unmap (pid vpage : Int)
  | fin
  | pageIn
  | pageOut
  | fout
  | zero
  | mapped (frame : Nat)
  | exitLine
  | exitHdr (pid : Int)
deriving DecidableEq

/-- Calls into the Working-Set pager's bookkeeping hooks, recorded so the
interplay of the two instruction counters can be stated. -/
inductive Hook where
  | selectCall (wsTime : Nat)
  | lastUsedUpd (frame time : Nat)
deriving DecidableEq

/-- Cost of a read or write. -/
def COST_READ_WRITE : Nat := 1
/-- Cost of a context switch. -/
def COST_CTX_SWITCH : Nat := 130
/-- Cost of a process exit. -/
def COST_PROCESS_EXIT : Nat := 1230
/-- Cost of a MAP. -/
def COST_MAP : Nat := 350
/-- Cost of an UNMAP. -/
def COST_UNMAP : Nat := 410
/-- Cost of an IN. -/
def COST_IN : Nat := 3200
/-- Cost of an OUT. -/
def COST_OUT : Nat := 2750
/-- Cost of a FIN. -/
def COST_FIN : Nat := 2350
/-- Cost of a FOUT. -/
def COST_FOUT : Nat := 2800
/-- Cost of a ZERO. -/
def COST_ZERO : Nat := 150
/-- Cost of a SEGV. -/
def COST_SEGV : Nat := 440
/-- Cost of a SEGPROT. -/
def COST_SEGPROT : Nat := 410

/-- The simulator state: frame table, processes, FIFO free-frame list,
current process, the MMU's global instruction counter, and the
Working-Set pager's private counter and per-frame `last_used` array. -/
structure MMU where
  numFrames : Nat
  numProcs : Nat
  frames : Nat → FTE
  procs : Nat → Proc
  freeFrames : List Nat
  curPid : Int
  instCount : Nat
  wsCount : Nat
  lastUsed : Nat → Nat
  totalCost : Nat
  ctxSwitches : Nat
  processExits : Nat

/-- Add to the global cost accumulator. -/
def MMU.addCost (s : MMU) (c : Nat) : MMU := { s with totalCost := s.totalCost + c }

/-- Overwrite the PTE of process `p` at vpage `v`. -/
def MMU.setPTE (s : MMU) (p v : Nat) (pte : PTE) : MMU :=
  let p1 := { s.procs p with pageTable := Function.update (s.procs p).pageTable v pte }
  { s with procs := Function.update s.procs p p1 }

/-- Apply `g` to the statistics of process `p`. -/
def MMU.modStats (s : MMU) (p : Nat) (g : Stats → Stats) : MMU :=
  let p1 := { s.procs p with pstats := g (s.procs p).pstats }
  { s with procs := Function.update s.procs p p1 }

/-- The `c procid` handler: charge the switch cost only on an actual switch. -/
def contextSwitch (s : MMU) (procid : Int) : MMU :=
  let s1 := if s.curPid ≠ procid then
              { s with ctxSwitches := s.ctxSwitches + 1,
                       totalCost := s.totalCost + COST_CTX_SWITCH }
            else s
  { s1 with curPid := procid }

/-- Effect of the page-fault handler's eviction on the old occupant's PTE:
on a dirty anonymous page set `paged_out`; always clear `modified` if set,
then clear `present`, `frame`, `referenced`. -/
def evictPTE (pte : PTE) : PTE :=
  let p1 := if pte.modified then
              (if pte.file_mapped then { pte with modified := false }
               else { pte with paged_out := true, modified := false })
            else pte
  { p1 with present := false, frame := 0, referenced := false }

/-- Trace events of the eviction of an old occupant. -/
def evictEvs (pid vpage : Int) (pte : PTE) : List Ev :=
  Ev.unmap pid vpage ::
    (if pte.modified then (if pte.file_mapped then [Ev.fout] else [Ev.pageOut]) else [])

/-- Cost charged by the eviction of an old occupant. -/
def evictCost (pte : PTE) : Nat :=
  COST_UNMAP + (if pte.modified then (if pte.file_mapped then COST_FOUT else COST_OUT) else 0)

/-- Statistics increments of the eviction of an old occupant. -/
def evictStats (pte : PTE) (st : Stats) : Stats :=
  { st with unmaps := st.unmaps + 1,
            fouts := st.fouts + (if pte.modified && pte.file_mapped then 1 else 0),
            outs := st.outs + (if pte.modified && !pte.file_mapped then 1 else 0) }

/-- The eviction block of `handlePageFault`: if the acquired frame is
occupied, unmap its old occupant and clear the frame-table entry. -/
def doEvict (s : MMU) (f : Nat) : MMU × List Ev :=
  let fr := s.frames f
  if fr.occupied then
    let op := fr.pid.toNat
    let ov := fr.vpage.toNat
    let old := (s.procs op).pageTable ov
    let s1 := s.setPTE op ov (evictPTE old)
    let s2 := s1.modStats op (evictStats old)
    let s3 := { s2 with frames := Function.update s2.frames f FTE.empty,
                        totalCost := s2.totalCost + evictCost old }
    (s3, evictEvs fr.pid fr.vpage old)
  else (s, [])

/-- The mapping block of `handlePageFault`: bind the frame to the current
(pid, vpage), set `present` and `frame` (a 7-bit store), bind permissions on
first touch, classify the fill (FIN / IN / ZERO) and emit MAP. -/
def doMap (s : MMU) (f : Nat) (v : Nat) : MMU × List Ev :=
  let cp := s.curPid.toNat
  let p := s.procs cp
  let pte0 := p.pageTable v
  let pte1 := { pte0 with present := true, frame := f % 128 }
  let pte2 := if pte1.initialized then pte1
              else { pte1 with write_protect := p.infoWP v, file_mapped := p.infoFM v,
                               initialized := true }
  let s1 := { s with frames := Function.update s.frames f
                       { pid := s.curPid, vpage := (v : Int), occupied := true } }
  let s2 := s1.setPTE cp v pte2
  let fill : Ev × Nat × (Stats → Stats) :=
    if pte2.file_mapped then (Ev.fin, COST_FIN, fun st => { st with fins := st.fins + 1 })
    else if pte2.paged_out then (Ev.pageIn, COST_IN, fun st => { st with ins := st.ins + 1 })
    else (Ev.zero, COST_ZERO, fun st => { st with zeros := st.zeros + 1 })
  let s3 := (s2.modStats cp fill.2.2).addCost fill.2.1
  let s4 := (s3.modStats cp (fun st => { st with maps := st.maps + 1 })).addCost COST_MAP
  (s4, [fill.1, Ev.mapped (f % 128)])

/-- Emit SEGV: bump the current process's `segv` counter and charge its cost. -/
def segvBump (s : MMU) : MMU :=
  (s.modStats s.curPid.toNat (fun st => { st with segv := st.segv + 1 })).addCost COST_SEGV

/-- The frame pool's `get_frame`: pop the free list if non-empty, otherwise
ask the active policy. The policy is abstracted as `pick`, which may update
the machine (policies clear `referenced` bits while scanning) and returns
the victim's index. The Bool records whether the policy was consulted. -/
def acquireFrame (pick : MMU → MMU × Nat) (s : MMU) : MMU × Nat × Bool :=
  match s.freeFrames with
  | f :: rest => ({ s with freeFrames := rest }, f, false)
  | [] => ((pick s).1, (pick s).2, true)

/-- The page-fault handler. Precondition in the source: the PTE is not
present. On an illegal page emit SEGV and return; otherwise acquire a
frame, evict its occupant if any, map the new page, and run the
Working-Set hooks (`resetAgeCounter` is not modelled; `updateLastUsedTime`
stores the MMU's instruction counter). -/
def handlePageFault (pick : MMU → MMU × Nat) (s : MMU) (v : Nat) : MMU × List Ev × List Hook :=
  if (s.procs s.curPid.toNat).isValidVpage v then
    let a := acquireFrame pick s
    let hks : List Hook := if a.2.2 then [Hook.selectCall s.wsCount] else []
    let e := doEvict a.1 a.2.1
    let m := doMap e.1 a.2.1 v
    let s4 := { m.1 with lastUsed := Function.update m.1.lastUsed (a.2.1 % 128) m.1.instCount }
    (s4, e.2 ++ m.2, hks ++ [Hook.lastUsedUpd (a.2.1 % 128) m.1.instCount])
  else (segvBump s, [Ev.segv], [])

/-- The `r` / `w` handler: always charge the read/write cost; SEGV on an
out-of-range vpage; fault in a non-present page (and bail if still not
present); SEGPROT on a write to a protected page (setting `referenced`);
otherwise set `referenced` (and `modified` on writes) and refresh the
Working-Set `last_used` time of the touched frame. -/
def handleMemoryAccess (pick : MMU → MMU × Nat) (s : MMU) (vp : Int) (isWrite : Bool) :
    MMU × List Ev × List Hook :=
  let s0 := s.addCost COST_READ_WRITE
  if vp < 0 ∨ (64 : Int) ≤ vp then
    (segvBump s0, [Ev.segv], [])
  else
    let v := vp.toNat
    let r1 :=
      if ((s0.procs s0.curPid.toNat).pageTable v).present then (s0, ([], []))
      else handlePageFault pick s0 v
    let s1 := r1.1
    let pte := (s1.procs s1.curPid.toNat).pageTable v
    if pte.present = false then r1
    else if isWrite && pte.write_protect then
      let s2 := s1.setPTE s1.curPid.toNat v { pte with referenced := true }
      let s3 := (s2.modStats s2.curPid.toNat
                  (fun st => { st with segprot := st.segprot + 1 })).addCost COST_SEGPROT
      (s3, r1.2.1 ++ [Ev.segprot], r1.2.2)
    else
      let pte1 := { pte with referenced := true, modified := pte.modified || isWrite }
      let s2 := s1.setPTE s1.curPid.toNat v pte1
      let s3 := { s2 with lastUsed := Function.update s2.lastUsed pte.frame s2.instCount }
      (s3, r1.2.1, r1.2.2 ++ [Hook.lastUsedUpd pte.frame s2.instCount])

/-- The trace lines a single page contributes during process exit. -/
def exitPageEvs (pid : Int) (pte : PTE) (v : Nat) : List Ev :=
  if pte.present then
    Ev.unmap pid (v : Int) :: (if pte.modified && pte.file_mapped then [Ev.fout] else [])
  else []

/-- One iteration of the per-page loop of `handleProcessExit`: unmap a
present page (FOUT on a dirty file-mapped page, never OUT), release its
frame to the back of the free list, and clear the PTE including
`paged_out`; on a non-present page just clear `paged_out`. -/
def exitStep (pid : Int) (a : MMU × List Ev) (v : Nat) : MMU × List Ev :=
  let s := a.1
  let pn := pid.toNat
  let pte := (s.procs pn).pageTable v
  if pte.present then
    let f := pte.frame
    let s1 := s.modStats pn (fun st => { st with unmaps := st.unmaps + 1 })
    let s2 := s1.addCost COST_UNMAP
    let s3 := if pte.modified && pte.file_mapped then
                (s2.modStats pn (fun st => { st with fouts := st.fouts + 1 })).addCost COST_FOUT
              else s2
    let s4 := { s3 with frames := Function.update s3.frames f FTE.empty,
                        freeFrames := s3.freeFrames ++ [f] }
    let s5 := s4.setPTE pn v { pte with present := false, referenced := false,
                                        modified := false, frame := 0, paged_out := false }
    (s5, a.2 ++ exitPageEvs pid pte v)
  else
    (s.setPTE pn v { pte with paged_out := false }, a.2)

/-- The net effect of one iteration of the exit loop on the page's PTE:
a present page is fully cleared (including `paged_out`); a non-present
page has `paged_out` cleared. -/
def exitPTE (pte : PTE) : PTE :=
  if pte.present then
    { pte with present := false, referenced := false, modified := false,
               frame := 0, paged_out := false }
  else { pte with paged_out := false }

/-- The `e procid` handler minus the EXIT trace line, common to both source
files: run the per-page loop over all 64 vpages, then count the exit and
charge its cost. -/
def exitCore (s : MMU) (pid : Int) : MMU × List Ev :=
  let r := (List.range MAX_VPAGES).foldl (exitStep pid) (s, [])
  ({ r.1 with processExits := r.1.processExits + 1,
              totalCost := r.1.totalCost + COST_PROCESS_EXIT }, r.2)

/-- tmp6.cpp's process exit: the `EXIT current process pid` line comes
before the per-page lines, and no ` EXIT` line is emitted. -/
def handleProcessExitT6 (s : MMU) (pid : Int) : MMU × List Ev :=
  let r := exitCore s pid
  (r.1, Ev.exitHdr pid :: r.2)

/-- tmp.cpp's process exit: the ` EXIT` line comes after the per-page lines. -/
def handleProcessExitT (s : MMU) (pid : Int) : MMU × List Ev :=
  let r := exitCore s pid
  (r.1, r.2 ++ [Ev.exitLine])

/-- Parsed instructions of the trace. -/
inductive Instr where
  | ctx (procid : Int)
  | read (vpage : Int)
  | write (vpage : Int)
  | exitp (procid : Int)
deriving DecidableEq

/-- One iteration of `MMU::simulate`: increment the global instruction
counter first, dispatch the instruction, then call the pagers'
`incrementInstructionCount` hook (which bumps the Working-Set pager's
private counter). -/
def stepInstr (pick : MMU → MMU × Nat) (s : MMU) (i : Instr) : MMU × List Ev × List Hook :=
  let s0 := { s with instCount := s.instCount + 1 }
  let r : MMU × List Ev × List Hook :=
    match i with
    | Instr.ctx p => (contextSwitch s0 p, [], [])
    | Instr.read v => handleMemoryAccess pick s0 v false
    | Instr.write v => handleMemoryAccess pick s0 v true
    | Instr.exitp p => ((handleProcessExitT6 s0 p).1, (handleProcessExitT6 s0 p).2, [])
  ({ r.1 with wsCount := r.1.wsCount + 1 }, r.2)

/-- The echoed instruction number of the trace line printed at the top of
one iteration of `MMU::simulate`: `inst_count - 1` after the increment. -/
def stepEcho (s : MMU) : Nat := (s.instCount + 1) - 1

/-- Run the simulation loop; `picks k` is the policy's victim selection
during instruction number `k`. -/
def runFrom (picks : Nat → MMU → MMU × Nat) (k : Nat) (s : MMU) : List Instr → MMU
  | [] => s
  | i :: rest => runFrom picks (k + 1) (stepInstr (picks k) s i).1 rest

/-- The initial machine: empty frames, free list `0 .. nf-1` in order,
zeroed page tables, no current process. -/
def initMMU (nf np : Nat) (vmaOf : Nat → List VMA) : MMU :=
  { numFrames := nf, numProcs := np,
    frames := fun _ => FTE.empty,
    procs := fun p => { vmas := vmaOf p, pageTable := fun _ => PTE.init, pstats := Stats.zero },
    freeFrames := List.range nf,
    curPid := -1, instCount := 0, wsCount := 0,
    lastUsed := fun _ => 0, totalCost := 0, ctxSwitches := 0, processExits := 0 }

/-- Clear the `referenced` bit of the PTE of `(p, v)` in a page-table view
keyed by process and vpage (the mutation policies perform while scanning). -/
def clearRef2 (pt : Nat → Nat → PTE) (p v : Nat) : Nat → Nat → PTE :=
  fun p0 v0 => if p0 = p ∧ v0 = v then { pt p v with referenced := false } else pt p0 v0

/-- The `referenced` bit of the PTE that frame `f` maps, through the
frame-table entry's reverse pointer. -/
def refOf (frames : Nat → FTE) (pt : Nat → Nat → PTE) (f : Nat) : Bool :=
  (pt (frames f).pid.toNat (frames f).vpage.toNat).referenced

/-- Result of `NRUPager::select_victim_frame`. -/
structure NRUOut where
  victim : Option Nat
  hand : Nat
  last_reset : Nat
  resetScan : Bool
  pt : Nat → Nat → PTE

/-- The NRU scan loop (do-while over at most one lap): classify the frame
under the hand, remember the first frame of each class, clear `referenced`
on a reset scan, and stop early on a class-0 frame when not resetting. -/
def nruLoop (N : Nat) (frames : Nat → FTE) (reset : Bool) (startHand : Nat) :
    Nat → Nat → (Nat → Option Nat) → (Nat → Nat → PTE) →
    ((Nat → Option Nat) × (Nat → Nat → PTE) × Nat)
  | 0, hand, cls, pt => (cls, pt, hand)
  | fuel + 1, hand, cls, pt =>
    let fr := frames hand
    let pte := pt fr.pid.toNat fr.vpage.toNat
    let ci := 2 * (if pte.referenced then 1 else 0) + (if pte.modified then 1 else 0)
    let cls1 := if (cls ci).isNone then Function.update cls ci (some hand) else cls
    let pt1 := if reset then clearRef2 pt fr.pid.toNat fr.vpage.toNat else pt
    let hand1 := (hand + 1) % N
    if reset = false ∧ ci = 0 then (cls1, pt1, hand1)
    else if hand1 = startHand then (cls1, pt1, hand1)
    else nruLoop N frames reset startHand fuel hand1 cls1 pt1

/-- The first frame recorded in the lowest non-empty class. -/
def lowestClass (cls : Nat → Option Nat) : Option Nat :=
  match cls 0 with
  | some f => some f
  | none =>
    match cls 1 with
    | some f => some f
    | none =>
      match cls 2 with
      | some f => some f
      | none => cls 3

/-- `NRUPager::select_victim_frame`, parameterized by the reset-cadence
threshold: 48 in tmp6.cpp, 50 in tmp.cpp. Decide the reset scan from the
MMU's instruction counter, stamp `last_reset` on a reset scan, run the
scan lap, pick the first frame of the lowest class, and advance the hand
past the victim. `victim = none` models the fatal no-victim error path. -/
def nruSelect (threshold : Nat) (N : Nat) (frames : Nat → FTE) (pt : Nat → Nat → PTE)
    (hand last_reset inst_count : Nat) : NRUOut :=
  let reset := decide (threshold ≤ inst_count - last_reset)
  let lr1 := if reset then inst_count else last_reset
  let r := nruLoop N frames reset hand N hand (fun _ => none) pt
  match lowestClass r.1 with
  | some vi =>
    { victim := some vi, hand := (vi + 1) % N, last_reset := lr1, resetScan := reset,
      pt := r.2.1 }
  | none =>
    { victim := none, hand := r.2.2, last_reset := lr1, resetScan := reset, pt := r.2.1 }

/-- tmp6.cpp's NRU select (reset threshold 48). -/
def nruSelectT6 : Nat → (Nat → FTE) → (Nat → Nat → PTE) → Nat → Nat → Nat → NRUOut :=
  nruSelect 48

/-- tmp.cpp's NRU select (reset threshold 50). -/
def nruSelectT : Nat → (Nat → FTE) → (Nat → Nat → PTE) → Nat → Nat → Nat → NRUOut :=
  nruSelect 50

/-- `ClockPager::select_victim_frame` as a fuel-bounded loop: select the
frame under the hand if its `referenced` bit is clear, else clear the bit
and advance. Returns the victim index, the new hand, and the updated
page-table view; `none` means the fuel ran out. -/
def clockLoop (N : Nat) (frames : Nat → FTE) :
    Nat → Nat → (Nat → Nat → PTE) → Option (Nat × Nat × (Nat → Nat → PTE))
  | 0, _, _ => none
  | fuel + 1, hand, pt =>
    let fr := frames hand
    let pte := pt fr.pid.toNat fr.vpage.toNat
    if pte.referenced = false then some (hand, ((hand + 1) % N, pt))
    else clockLoop N frames fuel ((hand + 1) % N) (clearRef2 pt fr.pid.toNat fr.vpage.toNat)

/-- The page-table view after the Clock scan has cleared the `referenced`
bit of the `m` frames it stepped over, starting at `hand`. -/
def clearScanned (N : Nat) (frames : Nat → FTE) (pt : Nat → Nat → PTE) (hand : Nat) :
    Nat → (Nat → Nat → PTE)
  | 0 => pt
  | m + 1 =>
    let prev := clearScanned N frames pt hand m
    let fr := frames ((hand + m) % N)
    clearRef2 prev fr.pid.toNat fr.vpage.toNat

/-- `RandomNumberGenerator::getNextRandom`: wrap the offset when the stream
is exhausted, then return element mod burst with C++ truncated `%`. -/
def getNextRandomVal (randvals : List Int) (ofs : Nat) (burst : Int) : Int :=
  let o := if randvals.length ≤ ofs then 0 else ofs
  (randvals.getD o 0).tmod burst

/-- The frame index `RandomPager::select_victim_frame` computes and then
uses to subscript the frame table. -/
def randomVictimIndex (randvals : List Int) (ofs : Nat) (num_frames : Int) : Int :=
  getNextRandomVal randvals ofs num_frames

/-- Process `p`'s PTE at vpage `v` is present and points at frame `f`
(with `p` and `v` in range). -/
def MapsTo (s : MMU) (p v f : Nat) : Prop :=
  p < s.numProcs ∧ v < MAX_VPAGES ∧
    ((s.procs p).pageTable v).present = true ∧ ((s.procs p).pageTable v).frame = f

/-- A frame is occupied exactly when some present PTE points at it. -/
def OccIffMapped (s : MMU) : Prop :=
  ∀ f < s.numFrames, ((s.frames f).occupied = true ↔ ∃ p v, MapsTo s p v f)

/-- No two (process, vpage) pairs point at the same frame. -/
def UniqueMap (s : MMU) : Prop :=
  ∀ p v p1 v1 f, MapsTo s p v f → MapsTo s p1 v1 f → p = p1 ∧ v = v1

/-- Every occupied frame's stored (pid, vpage) is a present PTE pointing
back at that frame. -/
def BackPtr (s : MMU) : Prop :=
  ∀ f < s.numFrames, (s.frames f).occupied = true →
    0 ≤ (s.frames f).pid ∧ 0 ≤ (s.frames f).vpage ∧
      MapsTo s (s.frames f).pid.toNat (s.frames f).vpage.toNat f

/-- Every present PTE's frame index is within the frame table. -/
def FrameBound (s : MMU) : Prop :=
  ∀ p v f, MapsTo s p v f → f < s.numFrames

/-- Every index in the free list is within the frame table. -/
def FreeOk (s : MMU) : Prop :=
  ∀ f ∈ s.freeFrames, f < s.numFrames

/-- The frame count is positive and within the 7-bit capacity of the PTE
frame field (`NUM_FRAMES ≤ 128` per the spec's data model). -/
def NumOk (s : MMU) : Prop := 0 < s.numFrames ∧ s.numFrames ≤ 128

/-- The inductive strengthening of the reverse-map invariant. -/
def Inv (s : MMU) : Prop :=
  OccIffMapped s ∧ UniqueMap s ∧ BackPtr s ∧ FrameBound s ∧ FreeOk s ∧ NumOk s

/-- The reverse-map invariant as the specification states it: a frame is
occupied iff exactly one (process, vpage) maps it. -/
def RevMapInv (s : MMU) : Prop :=
  ∀ f < s.numFrames,
    ((s.frames f).occupied = true ↔ ∃! pv : Nat × Nat, MapsTo s pv.1 pv.2 f)

/-- The current process id is a valid index. -/
def CurOk (s : MMU) : Prop := 0 ≤ s.curPid ∧ s.curPid.toNat < s.numProcs

/-- Two machines agree on everything the reverse-map invariant reads:
table sizes, frame table, free list, and the `present` and `frame` fields
of every PTE. -/
def SameMap (s t : MMU) : Prop :=
  t.numFrames = s.numFrames ∧ t.numProcs = s.numProcs ∧ t.frames = s.frames ∧
  t.freeFrames = s.freeFrames ∧
  ∀ p u, ((t.procs p).pageTable u).present = ((s.procs p).pageTable u).present ∧
    ((t.procs p).pageTable u).frame = ((s.procs p).pageTable u).frame

/-- Equality of PTEs up to the `referenced` bit. -/
def PTE.exceptRef (x : PTE) : PTE := { x with referenced := false }

/-- What a policy's `select_victim` may do to the machine: clear (or
otherwise change) `referenced` bits and rewrite its private `last_used`
slots, and nothing else. -/
def PagerOk (s t : MMU) : Prop :=
  t.numFrames = s.numFrames ∧ t.numProcs = s.numProcs ∧ t.frames = s.frames ∧
  t.freeFrames = s.freeFrames ∧ t.curPid = s.curPid ∧ t.instCount = s.instCount ∧
  t.wsCount = s.wsCount ∧ t.totalCost = s.totalCost ∧ t.ctxSwitches = s.ctxSwitches ∧
  t.processExits = s.processExits ∧
  ∀ p, (t.procs p).vmas = (s.procs p).vmas ∧ (t.procs p).pstats = (s.procs p).pstats ∧
    ∀ v, ((t.procs p).pageTable v).exceptRef = ((s.procs p).pageTable v).exceptRef

/-- A sample PTE that is present in frame 0. -/
def samplePTE : PTE := { PTE.init with present := true, initialized := true }

/-- A sample process whose vpage 0 is resident in frame 0. -/
def sampleProcA : Proc :=
  { vmas := [{ start_vpage := 0, end_vpage := 3, write_protect := false, file_mapped := false }],
    pageTable := fun v => if v = 0 then samplePTE else PTE.init,
    pstats := Stats.zero }

/-- A sample machine: one process, one frame, vpage 0 resident in frame 0. -/
def sampleExitState : MMU :=
  { numFrames := 1, numProcs := 1,
    frames := fun f => if f = 0 then { pid := 0, vpage := 0, occupied := true } else FTE.empty,
    procs := fun _ => sampleProcA,
    freeFrames := [], curPid := 0, instCount := 0, wsCount := 0,
    lastUsed := fun _ => 0, totalCost := 0, ctxSwitches := 0, processExits := 0 }

/-- A sample process whose vpage 0 is resident and write-protected. -/
def sampleProtProc : Proc :=
  { vmas := [{ start_vpage := 0, end_vpage := 3, write_protect := true, file_mapped := false }],
    pageTable := fun v => if v = 0 then { samplePTE with write_protect := true } else PTE.init,
    pstats := Stats.zero }

/-- A sample machine whose vpage 0 is present and write-protected. -/
def sampleProtState : MMU := { sampleExitState with procs := fun _ => sampleProtProc }

/-- Sample frame table for the Clock policy: two occupied frames. -/
def sampleClockFrames : Nat → FTE := fun f =>
  if f = 0 then { pid := 0, vpage := 0, occupied := true }
  else { pid := 0, vpage := 1, occupied := true }

/-- Sample page table for the Clock policy: vpage 0 referenced, vpage 1 not. -/
def sampleClockPT : Nat → Nat → PTE := fun _ v =>
  if v = 0 then { PTE.init with present := true, referenced := true }
  else { PTE.init with present := true, referenced := false }

/-- Bounded well-formedness of one instruction: context switches and exits
name an existing process. -/
def WfInstr (np : Nat) : Instr → Prop
  | Instr.ctx p => 0 ≤ p ∧ p.toNat < np
  | Instr.exitp p => 0 ≤ p ∧ p.toNat < np
  | _ => True

/-- A trace performs memory accesses only once a current process has been
established by a context switch (the source dereferences
`current_process` unconditionally). -/
def OkSeq : Bool → List Instr → Prop
  | _, [] => True
  | _, Instr.ctx _ :: l => OkSeq true l
  | b, Instr.read _ :: l => b = true ∧ OkSeq b l
  | b, Instr.write _ :: l => b = true ∧ OkSeq b l
  | b, Instr.exitp _ :: l => OkSeq b l

/-- Unfolding of `addCost`'s process component. -/
@[simp] theorem addCost_procs (s : MMU) (c : Nat) : (s.addCost c).procs = s.procs := rfl

/-- Unfolding of `addCost`'s frame component. -/
@[simp] theorem addCost_frames (s : MMU) (c : Nat) : (s.addCost c).frames = s.frames := rfl

/-- Unfolding of `addCost`'s free-list component. -/
@[simp] theorem addCost_freeFrames (s : MMU) (c : Nat) : (s.addCost c).freeFrames = s.freeFrames := rfl

/-- Unfolding of `addCost`'s current-process component. -/
@[simp] theorem addCost_curPid (s : MMU) (c : Nat) : (s.addCost c).curPid = s.curPid := rfl

/-- Unfolding of `addCost`'s instruction counter. -/
@[simp] theorem addCost_instCount (s : MMU) (c : Nat) : (s.addCost c).instCount = s.instCount := rfl

/-- Unfolding of `addCost`'s Working-Set counter. -/
@[simp] theorem addCost_wsCount (s : MMU) (c : Nat) : (s.addCost c).wsCount = s.wsCount := rfl

/-- Unfolding of `addCost`'s `lastUsed` component. -/
@[simp] theorem addCost_lastUsed (s : MMU) (c : Nat) : (s.addCost c).lastUsed = s.lastUsed := rfl

/-- Unfolding of `addCost`'s frame count. -/
@[simp] theorem addCost_numFrames (s : MMU) (c : Nat) : (s.addCost c).numFrames = s.numFrames := rfl

/-- Unfolding of `addCost`'s process count. -/
@[simp] theorem addCost_numProcs (s : MMU) (c : Nat) : (s.addCost c).numProcs = s.numProcs := rfl

/-- Unfolding of `addCost`'s context-switch counter. -/
@[simp] theorem addCost_ctxSwitches (s : MMU) (c : Nat) : (s.addCost c).ctxSwitches = s.ctxSwitches := rfl

/-- Unfolding of `addCost`'s exit counter. -/
@[simp] theorem addCost_processExits (s : MMU) (c : Nat) : (s.addCost c).processExits = s.processExits := rfl

/-- Unfolding of `addCost`'s cost accumulator. -/
@[simp] theorem addCost_totalCost (s : MMU) (c : Nat) : (s.addCost c).totalCost = s.totalCost + c := rfl

/-- Unfolding of `setPTE`'s process component. -/
@[simp] theorem setPTE_procs (s : MMU) (p v : Nat) (pte : PTE) :
    (s.setPTE p v pte).procs
      = Function.update s.procs p
          { s.procs p with pageTable := Function.update (s.procs p).pageTable v pte } := rfl

/-- Unfolding of `setPTE`'s frame component. -/
@[simp] theorem setPTE_frames (s : MMU) (p v : Nat) (pte : PTE) :
    (s.setPTE p v pte).frames = s.frames := rfl

/-- Unfolding of `setPTE`'s free-list component. -/
@[simp] theorem setPTE_freeFrames (s : MMU) (p v : Nat) (pte : PTE) :
    (s.setPTE p v pte).freeFrames = s.freeFrames := rfl

/-- Unfolding of `setPTE`'s current-process component. -/
@[simp] theorem setPTE_curPid (s : MMU) (p v : Nat) (pte : PTE) :
    (s.setPTE p v pte).curPid = s.curPid := rfl

/-- Unfolding of `setPTE`'s instruction counter. -/
@[simp] theorem setPTE_instCount (s : MMU) (p v : Nat) (pte : PTE) :
    (s.setPTE p v pte).instCount = s.instCount := rfl

/-- Unfolding of `setPTE`'s Working-Set counter. -/
@[simp] theorem setPTE_wsCount (s : MMU) (p v : Nat) (pte : PTE) :
    (s.setPTE p v pte).wsCount = s.wsCount := rfl

/-- Unfolding of `setPTE`'s `lastUsed` component. -/
@[simp] theorem setPTE_lastUsed (s : MMU) (p v : Nat) (pte : PTE) :
    (s.setPTE p v pte).lastUsed = s.lastUsed := rfl

/-- Unfolding of `setPTE`'s frame count. -/
@[simp] theorem setPTE_numFrames (s : MMU) (p v : Nat) (pte : PTE) :
    (s.setPTE p v pte).numFrames = s.numFrames := rfl

/-- Unfolding of `setPTE`'s process count. -/
@[simp] theorem setPTE_numProcs (s : MMU) (p v : Nat) (pte : PTE) :
    (s.setPTE p v pte).numProcs = s.numProcs := rfl

/-- Unfolding of `setPTE`'s cost accumulator. -/
@[simp] theorem setPTE_totalCost (s : MMU) (p v : Nat) (pte : PTE) :
    (s.setPTE p v pte).totalCost = s.totalCost := rfl

/-- Unfolding of `setPTE`'s context-switch counter. -/
@[simp] theorem setPTE_ctxSwitches (s : MMU) (p v : Nat) (pte : PTE) :
    (s.setPTE p v pte).ctxSwitches = s.ctxSwitches := rfl

/-- Unfolding of `setPTE`'s exit counter. -/
@[simp] theorem setPTE_processExits (s : MMU) (p v : Nat) (pte : PTE) :
    (s.setPTE p v pte).processExits = s.processExits := rfl

/-- Unfolding of `modStats`' process component. -/
@[simp] theorem modStats_procs (s : MMU) (p : Nat) (g : Stats → Stats) :
    (s.modStats p g).procs
      = Function.update s.procs p { s.procs p with pstats := g (s.procs p).pstats } := rfl

/-- Unfolding of `modStats`' frame component. -/
@[simp] theorem modStats_frames (s : MMU) (p : Nat) (g : Stats → Stats) :
    (s.modStats p g).frames = s.frames := rfl

/-- Unfolding of `modStats`' free-list component. -/
@[simp] theorem modStats_freeFrames (s : MMU) (p : Nat) (g : Stats → Stats) :
    (s.modStats p g).freeFrames = s.freeFrames := rfl

/-- Unfolding of `modStats`' current-process component. -/
@[simp] theorem modStats_curPid (s : MMU) (p : Nat) (g : Stats → Stats) :
    (s.modStats p g).curPid = s.curPid := rfl

/-- Unfolding of `modStats`' instruction counter. -/
@[simp] theorem modStats_instCount (s : MMU) (p : Nat) (g : Stats → Stats) :
    (s.modStats p g).instCount = s.instCount := rfl

/-- Unfolding of `modStats`' Working-Set counter. -/
@[simp] theorem modStats_wsCount (s : MMU) (p : Nat) (g : Stats → Stats) :
    (s.modStats p g).wsCount = s.wsCount := rfl

/-- Unfolding of `modStats`' `lastUsed` component. -/
@[simp] theorem modStats_lastUsed (s : MMU) (p : Nat) (g : Stats → Stats) :
    (s.modStats p g).lastUsed = s.lastUsed := rfl

/-- Unfolding of `modStats`' frame count. -/
@[simp] theorem modStats_numFrames (s : MMU) (p : Nat) (g : Stats → Stats) :
    (s.modStats p g).numFrames = s.numFrames := rfl

/-- Unfolding of `modStats`' process count. -/
@[simp] theorem modStats_numProcs (s : MMU) (p : Nat) (g : Stats → Stats) :
    (s.modStats p g).numProcs = s.numProcs := rfl

/-- Unfolding of `modStats`' cost accumulator. -/
@[simp] theorem modStats_totalCost (s : MMU) (p : Nat) (g : Stats → Stats) :
    (s.modStats p g).totalCost = s.totalCost := rfl

/-- Unfolding of `modStats`' context-switch counter. -/
@[simp] theorem modStats_ctxSwitches (s : MMU) (p : Nat) (g : Stats → Stats) :
    (s.modStats p g).ctxSwitches = s.ctxSwitches := rfl

/-- Unfolding of `modStats`' exit counter. -/
@[simp] theorem modStats_processExits (s : MMU) (p : Nat) (g : Stats → Stats) :
    (s.modStats p g).processExits = s.processExits := rfl

/-- A cleared PTE has `paged_out` unset. -/
theorem exitPTE_paged_out (pte : PTE) : (exitPTE pte).paged_out = false := by
  unfold exitPTE
  split <;> rfl

/-- The reset decision and the `last_reset` stamp of `nruSelect` depend
only on the threshold, the instruction counter and the previous stamp. -/
theorem nruSelect_reset (th N : Nat) (frames : Nat → FTE) (pt : Nat → Nat → PTE)
    (hand lr ic : Nat) :
    (nruSelect th N frames pt hand lr ic).resetScan = decide (th ≤ ic - lr) ∧
    (nruSelect th N frames pt hand lr ic).last_reset = if th ≤ ic - lr then ic else lr := by
  unfold nruSelect
  cases h : lowestClass (nruLoop N frames (decide (th ≤ ic - lr)) hand N hand
      (fun _ => none) pt).1 <;>
    simp [h]

/-- C1 (amended): tmp6.cpp's NRU marks a selection as a reset scan exactly
when the instruction counter minus the last-reset stamp is at least 48,
while tmp.cpp's NRU uses threshold 50; in both variants a reset scan
stamps `last_reset` with the current instruction counter and a non-reset
selection leaves it unchanged. -/
theorem c1_nru_reset_cadence (N : Nat) (frames : Nat → FTE) (pt : Nat → Nat → PTE)
    (hand lr ic : Nat) :
    ((nruSelectT6 N frames pt hand lr ic).resetScan = decide (48 ≤ ic - lr) ∧
      (nruSelectT6 N frames pt hand lr ic).last_reset = if 48 ≤ ic - lr then ic else lr) ∧
    ((nruSelectT N frames pt hand lr ic).resetScan = decide (50 ≤ ic - lr) ∧
      (nruSelectT N frames pt hand lr ic).last_reset = if 50 ≤ ic - lr then ic else lr) :=
  ⟨nruSelect_reset 48 N frames pt hand lr ic, nruSelect_reset 50 N frames pt hand lr ic⟩

/-- C1 (counterexample): in tmp.cpp's NRU, a selection at instruction
counter 48 with last reset at 0 has elapsed at least 48 instructions and
yet is not marked a reset scan (the threshold there is 50). -/
theorem c1_counterexample :
    48 ≤ 48 - 0 ∧
      (nruSelectT 1 (fun _ => FTE.empty) (fun _ _ => PTE.init) 0 0 48).resetScan = false :=
  ⟨by decide, by decide⟩

/-- C9: the frame index computed by the Random pager lies in
`[0, num_frames)` whenever every value of the random stream is
non-negative, but the stream content `[-3]` with 4 frames yields the
negative index -3, which is out of bounds for the subsequent frame-table
subscript. -/
theorem c9_random_victim_bounds :
    (∀ (rv : List Int) (ofs : Nat) (nf : Int), rv ≠ [] → (∀ x ∈ rv, 0 ≤ x) → 0 < nf →
      0 ≤ randomVictimIndex rv ofs nf ∧ randomVictimIndex rv ofs nf < nf) ∧
    randomVictimIndex [-3] 0 4 = -3 ∧ randomVictimIndex [-3] 0 4 < 0 := by
  refine ⟨?_, by decide, by decide⟩
  intro rv ofs nf hne hnn hpos
  have hlt : (if rv.length ≤ ofs then 0 else ofs) < rv.length := by
    by_cases h : rv.length ≤ ofs
    · simpa [h] using List.length_pos.mpr hne
    · simpa [h] using Nat.lt_of_not_le h
  have hx : 0 ≤ rv.getD (if rv.length ≤ ofs then 0 else ofs) 0 := by
    rw [List.getD_eq_getElem rv 0 hlt]
    exact hnn _ (List.getElem_mem hlt)
  exact ⟨Int.tmod_nonneg nf hx, Int.tmod_lt_of_pos _ hpos⟩

/-- C9 (witness): applying the bounds direction at the singleton stream
`[5]` with 4 frames. -/
theorem c9_witness :
    0 ≤ randomVictimIndex [5] 0 4 ∧ randomVictimIndex [5] 0 4 < 4 :=
  c9_random_victim_bounds.1 [5] 0 4 (by decide) (by decide) (by decide)

/-- Characterization of one iteration of the exit loop: it appends the
page's trace lines, touches only the exiting process, rewrites exactly
this page's PTE to its cleared form, and bumps `unmaps` and `fouts` as the
page demands. -/
theorem exitStep_spec (pid : Int) (s : MMU) (evs : List Ev) (v : Nat) :
    (exitStep pid (s, evs) v).2 = evs ++ exitPageEvs pid ((s.procs pid.toNat).pageTable v) v ∧
    (∀ q, q ≠ pid.toNat → (exitStep pid (s, evs) v).1.procs q = s.procs q) ∧
    ((exitStep pid (s, evs) v).1.procs pid.toNat).pageTable
      = Function.update (s.procs pid.toNat).pageTable v
          (exitPTE ((s.procs pid.toNat).pageTable v)) ∧
    ((exitStep pid (s, evs) v).1.procs pid.toNat).pstats.unmaps
      = (s.procs pid.toNat).pstats.unmaps
        + (if ((s.procs pid.toNat).pageTable v).present then 1 else 0) ∧
    ((exitStep pid (s, evs) v).1.procs pid.toNat).pstats.fouts
      = (s.procs pid.toNat).pstats.fouts
        + (if ((s.procs pid.toNat).pageTable v).present
              && (((s.procs pid.toNat).pageTable v).modified
                    && ((s.procs pid.toNat).pageTable v).file_mapped) then 1 else 0) := by
  by_cases hp : ((s.procs pid.toNat).pageTable v).present
  · by_cases hmf : ((s.procs pid.toNat).pageTable v).modified
        && ((s.procs pid.toNat).pageTable v).file_mapped
    · refine ⟨?_, ?_, ?_, ?_, ?_⟩
      all_goals simp [exitStep, exitPageEvs, exitPTE, hp, hmf, Function.update_noteq]
      all_goals intro q hq
      all_goals simp [Function.update_noteq hq]
    · refine ⟨?_, ?_, ?_, ?_, ?_⟩
      all_goals simp [exitStep, exitPageEvs, exitPTE, hp, hmf, Function.update_noteq]
      all_goals intro q hq
      all_goals simp [Function.update_noteq hq]
  · refine ⟨?_, ?_, ?_, ?_, ?_⟩
    all_goals simp [exitStep, exitPageEvs, exitPTE, hp, Function.update_noteq]
    all_goals intro q hq
    all_goals simp [Function.update_noteq hq]

/-- Congruence of `flatMap` under pointwise agreement on the list. -/
theorem flatMapCongrOn {α β : Type} {l : List α} {f g : α → List β}
    (h : ∀ a ∈ l, f a = g a) : l.flatMap f = l.flatMap g := by
  induction l with
  | nil => rfl
  | cons a l ih =>
    simp only [List.flatMap_cons]
    rw [h a (by simp), ih (fun b hb => h b (by simp [hb]))]

/-- Characterization of the whole per-page exit loop over a duplicate-free
page list: the trace is the concatenation of the per-page blocks computed
from the pre-state, other processes are untouched, each listed page's PTE
is cleared, and the counters accumulate over the listed pages. -/
theorem exit_fold (pid : Int) :
    ∀ (l : List Nat), l.Nodup → ∀ (s : MMU) (evs : List Ev),
    ((l.foldl (exitStep pid) (s, evs)).2
        = evs ++ l.flatMap (fun v => exitPageEvs pid ((s.procs pid.toNat).pageTable v) v)) ∧
    (∀ q, q ≠ pid.toNat → (l.foldl (exitStep pid) (s, evs)).1.procs q = s.procs q) ∧
    (∀ u, ((l.foldl (exitStep pid) (s, evs)).1.procs pid.toNat).pageTable u
        = if u ∈ l then exitPTE ((s.procs pid.toNat).pageTable u)
          else (s.procs pid.toNat).pageTable u) ∧
    ((l.foldl (exitStep pid) (s, evs)).1.procs pid.toNat).pstats.unmaps
        = (s.procs pid.toNat).pstats.unmaps
          + l.countP (fun v => ((s.procs pid.toNat).pageTable v).present) ∧
    ((l.foldl (exitStep pid) (s, evs)).1.procs pid.toNat).pstats.fouts
        = (s.procs pid.toNat).pstats.fouts
          + l.countP (fun v => ((s.procs pid.toNat).pageTable v).present
              && (((s.procs pid.toNat).pageTable v).modified
                    && ((s.procs pid.toNat).pageTable v).file_mapped)) := by
  intro l
  induction l with
  | nil => intro _ s evs; simp
  | cons v l ih =>
    intro hnd s evs
    have hvl : v ∉ l := (List.nodup_cons.mp hnd).1
    have hl : l.Nodup := (List.nodup_cons.mp hnd).2
    obtain ⟨he, hq, hpt, hu, hf⟩ := exitStep_spec pid s evs v
    have hfold : (v :: l).foldl (exitStep pid) (s, evs)
        = l.foldl (exitStep pid) ((exitStep pid (s, evs) v).1, (exitStep pid (s, evs) v).2) := by
      simp [List.foldl_cons]
    set s1 := (exitStep pid (s, evs) v).1 with hs1
    set e1 := (exitStep pid (s, evs) v).2 with he1
    obtain ⟨ihe, ihq, ihpt, ihu, ihf⟩ := ih hl s1 e1
    have hptsame : ∀ u ∈ l,
        (s1.procs pid.toNat).pageTable u = (s.procs pid.toNat).pageTable u := by
      intro u hul
      rw [hpt]
      exact Function.update_noteq (fun h => hvl (by rwa [h] at hul)) _ _
    refine ⟨?_, ?_, ?_, ?_, ?_⟩
    · rw [hfold, ihe, he, List.flatMap_cons, List.append_assoc]
      congr 1
      congr 1
      exact flatMapCongrOn (fun u hul => by rw [hptsame u hul])
    · intro q hqq
      rw [hfold, ihq q hqq, hq q hqq]
    · intro u
      rw [hfold, ihpt u]
      by_cases hul : u ∈ l
      · rw [if_pos hul, if_pos (by simp [hul]), hptsame u hul]
      · rw [if_neg hul, hpt]
        by_cases huv : u = v
        · subst huv
          rw [if_pos (by simp), Function.update_same]
        · rw [if_neg (by simp [huv, hul]), Function.update_noteq huv]
    · rw [hfold, ihu, hu, List.countP_cons]
      have hc : l.countP (fun u => ((s1.procs pid.toNat).pageTable u).present)
          = l.countP (fun u => ((s.procs pid.toNat).pageTable u).present) :=
        List.countP_congr (fun u hul => by rw [hptsame u hul])
      omega
    · rw [hfold, ihf, hf, List.countP_cons]
      have hc : l.countP (fun u => ((s1.procs pid.toNat).pageTable u).present
              && (((s1.procs pid.toNat).pageTable u).modified
                    && ((s1.procs pid.toNat).pageTable u).file_mapped))
          = l.countP (fun u => ((s.procs pid.toNat).pageTable u).present
              && (((s.procs pid.toNat).pageTable u).modified
                    && ((s.procs pid.toNat).pageTable u).file_mapped)) :=
        List.countP_congr (fun u hul => by rw [hptsame u hul])
      omega

/-- The exit trace is the concatenation of the per-page blocks computed
from the pre-state page table. -/
theorem exitCore_evs (s : MMU) (pid : Int) :
    (exitCore s pid).2
      = (List.range MAX_VPAGES).flatMap
          (fun v => exitPageEvs pid ((s.procs pid.toNat).pageTable v) v) := by
  have h := (exit_fold pid (List.range MAX_VPAGES) (List.nodup_range _) s []).1
  simpa [exitCore] using h

/-- Every line a page contributes during exit is its UNMAP or an FOUT. -/
theorem exitPageEvs_sub (pid : Int) (pte : PTE) (v : Nat) :
    ∀ e ∈ exitPageEvs pid pte v, e = Ev.unmap pid (v : Int) ∨ e = Ev.fout := by
  intro e he
  unfold exitPageEvs at he
  by_cases hp : pte.present
  · rw [if_pos hp] at he
    by_cases hmf : pte.modified && pte.file_mapped
    · rw [if_pos hmf] at he
      simpa using he
    · rw [if_neg hmf] at he
      simp at he
      exact Or.inl he
  · rw [if_neg hp] at he
    simp at he

/-- No ` EXIT` line occurs among the per-page exit lines. -/
theorem exitCore_no_exitLine (s : MMU) (pid : Int) :
    (exitCore s pid).2.count Ev.exitLine = 0 := by
  rw [List.count_eq_zero, exitCore_evs]
  intro hmem
  rw [List.mem_flatMap] at hmem
  obtain ⟨v, _, hin⟩ := hmem
  rcases exitPageEvs_sub pid _ v _ hin with h | h <;> cases h

/-- No OUT line occurs among the per-page exit lines. -/
theorem exitCore_no_out (s : MMU) (pid : Int) :
    (exitCore s pid).2.count Ev.pageOut = 0 := by
  rw [List.count_eq_zero, exitCore_evs]
  intro hmem
  rw [List.mem_flatMap] at hmem
  obtain ⟨v, _, hin⟩ := hmem
  rcases exitPageEvs_sub pid _ v _ hin with h | h <;> cases h

/-- C3: during a process exit, every present PTE contributes an UNMAP line
and is counted in `unmaps`; an FOUT line appears in a page's block exactly
when that page is present with `modified` and `file_mapped` set, and
`fouts` counts exactly those pages; no OUT line is emitted; and afterwards
`paged_out` is clear on all 64 PTEs of the exited process. -/
theorem c3_exit_events (s : MMU) (pid : Int) :
    ((exitCore s pid).2
        = (List.range 64).flatMap
            (fun v => exitPageEvs pid ((s.procs pid.toNat).pageTable v) v)) ∧
    (∀ v, v < 64 → ((s.procs pid.toNat).pageTable v).present = true →
        Ev.unmap pid (v : Int) ∈ (exitCore s pid).2) ∧
    (((exitCore s pid).1.procs pid.toNat).pstats.unmaps
        = (s.procs pid.toNat).pstats.unmaps
          + (List.range 64).countP (fun v => ((s.procs pid.toNat).pageTable v).present)) ∧
    (∀ v, Ev.fout ∈ exitPageEvs pid ((s.procs pid.toNat).pageTable v) v
        ↔ ((s.procs pid.toNat).pageTable v).present = true
            ∧ ((s.procs pid.toNat).pageTable v).modified = true
            ∧ ((s.procs pid.toNat).pageTable v).file_mapped = true) ∧
    (((exitCore s pid).1.procs pid.toNat).pstats.fouts
        = (s.procs pid.toNat).pstats.fouts
          + (List.range 64).countP (fun v => ((s.procs pid.toNat).pageTable v).present
              && (((s.procs pid.toNat).pageTable v).modified
                    && ((s.procs pid.toNat).pageTable v).file_mapped))) ∧
    ((exitCore s pid).2.count Ev.pageOut = 0) ∧
    (∀ v, v < 64 → (((exitCore s pid).1.procs pid.toNat).pageTable v).paged_out = false) := by
  obtain ⟨he, hq, hpt, hu, hf⟩ := exit_fold pid (List.range MAX_VPAGES) (List.nodup_range _) s []
  refine ⟨exitCore_evs s pid, ?_, ?_, ?_, ?_, exitCore_no_out s pid, ?_⟩
  · intro v hv hp
    rw [exitCore_evs, List.mem_flatMap]
    exact ⟨v, List.mem_range.mpr (by simpa [MAX_VPAGES] using hv), by simp [exitPageEvs, hp]⟩
  · simpa [exitCore, MAX_VPAGES] using hu
  · intro v
    by_cases hp : ((s.procs pid.toNat).pageTable v).present
    · by_cases hm : ((s.procs pid.toNat).pageTable v).modified
      · by_cases hfm : ((s.procs pid.toNat).pageTable v).file_mapped
        · simp [exitPageEvs, hp, hm, hfm]
        · simp [exitPageEvs, hp, hm, hfm]
      · simp [exitPageEvs, hp, hm]
    · simp [exitPageEvs, hp]
  · simpa [exitCore, MAX_VPAGES] using hf
  · intro v hv
    have h64 : v ∈ List.range MAX_VPAGES := List.mem_range.mpr (by simpa [MAX_VPAGES] using hv)
    have hthis := hpt v
    rw [if_pos h64] at hthis
    have hfinal : ((exitCore s pid).1.procs pid.toNat).pageTable v
        = exitPTE ((s.procs pid.toNat).pageTable v) := by
      simpa [exitCore] using hthis
    rw [hfinal, exitPTE_paged_out]

set_option maxRecDepth 8000 in
/-- C3 (witness): concrete exit of the sample machine, whose vpage 0 is
present: its UNMAP line is emitted. -/
theorem c3_witness : Ev.unmap 0 0 ∈ (exitCore sampleExitState 0).2 :=
  (c3_exit_events sampleExitState 0).2.1 0 (by decide) (by decide)

/-- C8 (amended): tmp.cpp's exit emits the ` EXIT` line last, after every
per-page UNMAP and FOUT line (none of which is an ` EXIT` line); tmp6.cpp
instead emits an `EXIT current process pid` line before the per-page lines
and emits no ` EXIT` line at all. -/
theorem c8_exit_trace_order (s : MMU) (pid : Int) :
    ((handleProcessExitT s pid).2 = (exitCore s pid).2 ++ [Ev.exitLine] ∧
      (exitCore s pid).2.count Ev.exitLine = 0) ∧
    ((handleProcessExitT6 s pid).2 = Ev.exitHdr pid :: (exitCore s pid).2 ∧
      (handleProcessExitT6 s pid).2.count Ev.exitLine = 0) := by
  refine ⟨⟨rfl, exitCore_no_exitLine s pid⟩, ⟨rfl, ?_⟩⟩
  simp [handleProcessExitT6, List.count_cons, exitCore_no_exitLine s pid]

set_option maxRecDepth 8000 in
/-- C8 (counterexample): exiting process 0 of the sample machine through
tmp6.cpp's handler emits an UNMAP line but no ` EXIT` line anywhere, so
the claim that every exit emits ` EXIT` after the per-page lines fails on
that source variant. -/
theorem c8_counterexample :
    Ev.unmap 0 0 ∈ (handleProcessExitT6 sampleExitState 0).2 ∧
    (handleProcessExitT6 sampleExitState 0).2.count Ev.exitLine = 0 ∧
    (handleProcessExitT6 sampleExitState 0).2.head? = some (Ev.exitHdr 0) :=
  ⟨by decide, by decide, by decide⟩

/-- C4: a memory access that faults on a vpage outside [0, 64) or not
covered by any VMA of the current process emits exactly one SEGV line,
increments the current process's segv counter, charges the read/write
cost plus the SEGV cost, leaves every PTE of every process unchanged, and
in particular the faulting PTE remains non-present. -/
theorem c4_segv_access (pick : MMU → MMU × Nat) (s : MMU) (vp : Int) (w : Bool)
    (h : (vp < 0 ∨ (64 : Int) ≤ vp) ∨
      (0 ≤ vp ∧ vp < 64 ∧ ((s.procs s.curPid.toNat).pageTable vp.toNat).present = false
        ∧ (s.procs s.curPid.toNat).isValidVpage vp.toNat = false)) :
    (handleMemoryAccess pick s vp w).2.1 = [Ev.segv] ∧
    ((handleMemoryAccess pick s vp w).1.procs s.curPid.toNat).pstats.segv
      = (s.procs s.curPid.toNat).pstats.segv + 1 ∧
    (handleMemoryAccess pick s vp w).1.totalCost = s.totalCost + COST_READ_WRITE + COST_SEGV ∧
    (∀ p v, ((handleMemoryAccess pick s vp w).1.procs p).pageTable v
        = (s.procs p).pageTable v) ∧
    (((s.procs s.curPid.toNat).pageTable vp.toNat).present = false →
      (((handleMemoryAccess pick s vp w).1.procs s.curPid.toNat).pageTable vp.toNat).present
        = false) := by
  rcases h with hr | ⟨h0, h1, hp, hv⟩
  · refine ⟨?_, ?_, ?_, ?_, ?_⟩
    · simp [handleMemoryAccess, hr]
    · simp [handleMemoryAccess, hr, segvBump]
    · simp [handleMemoryAccess, hr, segvBump]
    · intro p v
      by_cases hpc : p = s.curPid.toNat
      · subst hpc; simp [handleMemoryAccess, hr, segvBump]
      · simp [handleMemoryAccess, hr, segvBump, Function.update_noteq hpc]
    · intro hnp
      simp [handleMemoryAccess, hr, segvBump, hnp]
  · have hr : ¬(vp < 0 ∨ (64 : Int) ≤ vp) := by omega
    refine ⟨?_, ?_, ?_, ?_, ?_⟩
    · simp [handleMemoryAccess, hr, hp, handlePageFault, hv, segvBump]
    · simp [handleMemoryAccess, hr, hp, handlePageFault, hv, segvBump]
    · simp [handleMemoryAccess, hr, hp, handlePageFault, hv, segvBump]
    · intro p v
      by_cases hpc : p = s.curPid.toNat
      · subst hpc; simp [handleMemoryAccess, hr, hp, handlePageFault, hv, segvBump]
      · simp [handleMemoryAccess, hr, hp, handlePageFault, hv, segvBump,
          Function.update_noteq hpc]
    · intro hnp
      simp [handleMemoryAccess, hr, hp, handlePageFault, hv, segvBump, hnp]


/-- C5: a write access to a present page whose PTE is write-protected
emits exactly one SEGPROT line, sets `referenced`, leaves `modified`
still 0, increments segprot, and charges the read/write cost plus the
SEGPROT cost. -/
theorem c5_segprot_write (pick : MMU → MMU × Nat) (s : MMU) (vp : Int)
    (h0 : 0 ≤ vp) (h1 : vp < 64)
    (hp : ((s.procs s.curPid.toNat).pageTable vp.toNat).present = true)
    (hw : ((s.procs s.curPid.toNat).pageTable vp.toNat).write_protect = true)
    (hm : ((s.procs s.curPid.toNat).pageTable vp.toNat).modified = false) :
    (handleMemoryAccess pick s vp true).2.1 = [Ev.segprot] ∧
    (((handleMemoryAccess pick s vp true).1.procs s.curPid.toNat).pageTable vp.toNat).referenced
      = true ∧
    (((handleMemoryAccess pick s vp true).1.procs s.curPid.toNat).pageTable vp.toNat).modified
      = false ∧
    ((handleMemoryAccess pick s vp true).1.procs s.curPid.toNat).pstats.segprot
      = (s.procs s.curPid.toNat).pstats.segprot + 1 ∧
    (handleMemoryAccess pick s vp true).1.totalCost
      = s.totalCost + COST_READ_WRITE + COST_SEGPROT := by
  have hr : ¬(vp < 0 ∨ (64 : Int) ≤ vp) := by omega
  refine ⟨?_, ?_, ?_, ?_, ?_⟩ <;>
    simp [handleMemoryAccess, hr, hp, hw, hm]


/-- Field-level description of the eviction transform of a PTE. -/
theorem evictPTE_fields (pte : PTE) :
    (evictPTE pte).present = false ∧ (evictPTE pte).frame = 0 ∧
    (evictPTE pte).referenced = false ∧ (evictPTE pte).modified = false ∧
    (evictPTE pte).write_protect = pte.write_protect ∧
    (evictPTE pte).file_mapped = pte.file_mapped ∧
    (evictPTE pte).initialized = pte.initialized ∧
    (evictPTE pte).paged_out
      = (if pte.modified && !pte.file_mapped then true else pte.paged_out) := by
  unfold evictPTE
  by_cases hm : pte.modified <;> by_cases hf : pte.file_mapped <;> simp [hm, hf]

/-- C6: when the page-fault handler evicts the occupant of the acquired
frame, the old occupant's PTE ends with `present`, `frame`, `referenced`
and `modified` cleared, its `write_protect`, `file_mapped` and
`initialized` bits unchanged, and `paged_out` set exactly when the old
PTE was modified and anonymous, otherwise unchanged. -/
theorem c6_eviction_effect (pick : MMU → MMU × Nat) (s s1 : MMU) (v f : Nat) (b : Bool)
    (hacq : acquireFrame pick s = (s1, f, b))
    (hval : (s.procs s.curPid.toNat).isValidVpage v = true)
    (hocc : (s1.frames f).occupied = true)
    (hop : ((s1.procs (s1.frames f).pid.toNat).pageTable
        (s1.frames f).vpage.toNat).present = true)
    (hnp1 : ((s1.procs s1.curPid.toNat).pageTable v).present = false) :
    let old := (s1.procs (s1.frames f).pid.toNat).pageTable (s1.frames f).vpage.toNat
    let fin := ((handlePageFault pick s v).1.procs (s1.frames f).pid.toNat).pageTable
        (s1.frames f).vpage.toNat
    fin.present = false ∧ fin.frame = 0 ∧ fin.referenced = false ∧ fin.modified = false ∧
    fin.write_protect = old.write_protect ∧ fin.file_mapped = old.file_mapped ∧
    fin.initialized = old.initialized ∧
    fin.paged_out = (if old.modified && !old.file_mapped then true else old.paged_out) := by
  intro old fin
  set op := (s1.frames f).pid.toNat with hopdef
  set ov := (s1.frames f).vpage.toNat with hovdef
  have hevict_pt : ((doEvict s1 f).1.procs op).pageTable
      = Function.update ((s1.procs op).pageTable) ov (evictPTE old) := by
    simp [doEvict, hocc, old]
  have hevict_other : ∀ q, q ≠ op → (doEvict s1 f).1.procs q = s1.procs q := by
    intro q hq
    simp [doEvict, hocc, Function.update_noteq hq]
  have hevict_cur : (doEvict s1 f).1.curPid = s1.curPid := by
    simp [doEvict, hocc]
  have hmap : ((doMap (doEvict s1 f).1 f v).1.procs op).pageTable ov
      = ((doEvict s1 f).1.procs op).pageTable ov := by
    by_cases hcpop : (doEvict s1 f).1.curPid.toNat = op
    · have hvov : ov ≠ v := by
        intro h
        rw [hevict_cur] at hcpop
        rw [hcpop, ← h] at hnp1
        simp [hnp1] at hop
      simp [doMap, hcpop, Function.update_noteq hvov]
    · have hne : op ≠ (doEvict s1 f).1.curPid.toNat := fun h => hcpop h.symm
      simp [doMap, Function.update_noteq hne]
  have hfault : (handlePageFault pick s v).1.procs
      = (doMap (doEvict s1 f).1 f v).1.procs := by
    simp [handlePageFault, hval, hacq]
  have hmain : fin = evictPTE old := by
    show ((handlePageFault pick s v).1.procs op).pageTable ov = evictPTE old
    rw [hfault, hmap, hevict_pt, Function.update_same]
  rw [hmain]
  exact evictPTE_fields old

/-- C4 (witness): accessing vpage 70 (outside [0, 64)) of the sample
machine takes the SEGV path. -/
theorem c4_witness :
    (handleMemoryAccess (fun t => (t, 0)) sampleExitState 70 false).2.1 = [Ev.segv] ∧
    ((handleMemoryAccess (fun t => (t, 0)) sampleExitState 70 false).1.procs
        sampleExitState.curPid.toNat).pstats.segv
      = (sampleExitState.procs sampleExitState.curPid.toNat).pstats.segv + 1 ∧
    (handleMemoryAccess (fun t => (t, 0)) sampleExitState 70 false).1.totalCost
      = sampleExitState.totalCost + COST_READ_WRITE + COST_SEGV ∧
    (∀ p v,
      ((handleMemoryAccess (fun t => (t, 0)) sampleExitState 70 false).1.procs p).pageTable v
        = (sampleExitState.procs p).pageTable v) ∧
    (((sampleExitState.procs sampleExitState.curPid.toNat).pageTable
        (70 : Int).toNat).present = false →
      (((handleMemoryAccess (fun t => (t, 0)) sampleExitState 70 false).1.procs
          sampleExitState.curPid.toNat).pageTable (70 : Int).toNat).present = false) :=
  c4_segv_access (fun t => (t, 0)) sampleExitState 70 false (Or.inl (Or.inr (by decide)))

/-- C5 (witness): a write to the write-protected resident vpage 0 of the
sample machine takes the SEGPROT path. -/
theorem c5_witness :
    (handleMemoryAccess (fun t => (t, 0)) sampleProtState 0 true).2.1 = [Ev.segprot] ∧
    (((handleMemoryAccess (fun t => (t, 0)) sampleProtState 0 true).1.procs
        sampleProtState.curPid.toNat).pageTable (0 : Int).toNat).referenced = true ∧
    (((handleMemoryAccess (fun t => (t, 0)) sampleProtState 0 true).1.procs
        sampleProtState.curPid.toNat).pageTable (0 : Int).toNat).modified = false ∧
    ((handleMemoryAccess (fun t => (t, 0)) sampleProtState 0 true).1.procs
        sampleProtState.curPid.toNat).pstats.segprot
      = (sampleProtState.procs sampleProtState.curPid.toNat).pstats.segprot + 1 ∧
    (handleMemoryAccess (fun t => (t, 0)) sampleProtState 0 true).1.totalCost
      = sampleProtState.totalCost + COST_READ_WRITE + COST_SEGPROT :=
  c5_segprot_write (fun t => (t, 0)) sampleProtState 0 (by decide) (by decide)
    (by decide) (by decide) (by decide)

/-- C6 (witness): faulting vpage 1 of the sample machine with an empty
free list acquires occupied frame 0 and leaves its old occupant's PTE
non-present. -/
theorem c6_witness :
    (((handlePageFault (fun t => (t, 0)) sampleExitState 1).1.procs
        (sampleExitState.frames 0).pid.toNat).pageTable
        (sampleExitState.frames 0).vpage.toNat).present = false :=
  (c6_eviction_effect (fun t => (t, 0)) sampleExitState sampleExitState 1 0 true rfl
    (by decide) (by decide) (by decide) (by decide)).1

/-- Two distinct offsets within one lap probe distinct frame indices. -/
theorem probe_ne {N : Nat} (h i j : Nat) (hi : i < N) (hj : j < N) (hij : i ≠ j) :
    (h + i) % N ≠ (h + j) % N := by
  intro he
  have h3 : Nat.ModEq N i j := Nat.ModEq.add_left_cancel' h he
  have h4 : i % N = j % N := h3
  rw [Nat.mod_eq_of_lt hi, Nat.mod_eq_of_lt hj] at h4
  exact hij h4

/-- Clearing the bit of the frame's own PTE makes its `referenced` read false. -/
theorem refOf_clearRef2_self (frames : Nat → FTE) (pt : Nat → Nat → PTE) (f : Nat) :
    refOf frames (clearRef2 pt (frames f).pid.toNat (frames f).vpage.toNat) f = false := by
  simp [refOf, clearRef2]

/-- Clearing the bit of a different (pid, vpage) leaves a frame's `referenced` read unchanged. -/
theorem refOf_clearRef2_ne (frames : Nat → FTE) (pt : Nat → Nat → PTE) (f g : Nat)
    (hne : ((frames f).pid.toNat, (frames f).vpage.toNat)
      ≠ ((frames g).pid.toNat, (frames g).vpage.toNat)) :
    refOf frames (clearRef2 pt (frames g).pid.toNat (frames g).vpage.toNat) f
      = refOf frames pt f := by
  have hcond : ¬((frames f).pid.toNat = (frames g).pid.toNat
      ∧ (frames f).vpage.toNat = (frames g).vpage.toNat) := by
    intro ⟨h1, h2⟩
    exact hne (by rw [h1, h2])
  simp [refOf, clearRef2, hcond]

/-- Shifting the base of `clearScanned` by one probe. -/
theorem clearScanned_shift (N : Nat) (frames : Nat → FTE) (pt : Nat → Nat → PTE) (h : Nat)
    (hh : h < N) : ∀ m,
    clearScanned N frames pt h (m + 1)
      = clearScanned N frames
          (clearRef2 pt (frames h).pid.toNat (frames h).vpage.toNat) ((h + 1) % N) m := by
  intro m
  induction m with
  | zero =>
    show clearRef2 (clearScanned N frames pt h 0) (frames ((h + 0) % N)).pid.toNat
        (frames ((h + 0) % N)).vpage.toNat = _
    rw [Nat.add_zero, Nat.mod_eq_of_lt hh]
    rfl
  | succ m ih =>
    show clearRef2 (clearScanned N frames pt h (m + 1)) (frames ((h + (m + 1)) % N)).pid.toNat
        (frames ((h + (m + 1)) % N)).vpage.toNat = _
    rw [ih]
    have hidx : ((h + 1) % N + m) % N = (h + (m + 1)) % N := by
      rw [Nat.mod_add_mod]
      congr 1
      omega
    show _ = clearRef2 (clearScanned N frames _ ((h + 1) % N) m)
        (frames (((h + 1) % N + m) % N)).pid.toNat
        (frames (((h + 1) % N + m) % N)).vpage.toNat
    rw [hidx]

/-- One unfolding step of the Clock loop. -/
theorem clockLoop_succ (N : Nat) (frames : Nat → FTE) (fuel hand : Nat)
    (pt : Nat → Nat → PTE) :
    clockLoop N frames (fuel + 1) hand pt
      = if refOf frames pt hand = false then some (hand, ((hand + 1) % N, pt))
        else clockLoop N frames fuel ((hand + 1) % N)
          (clearRef2 pt (frames hand).pid.toNat (frames hand).vpage.toNat) := rfl

/-- The Clock loop, given the index `k` of the first unreferenced probe
(or `k = N` when all frames are referenced), selects probe `k`, clears
the `referenced` bits of the skipped frames, and sets the hand past the
victim, using at most `k + 1` units of fuel. -/
theorem clockLoop_spec (N : Nat) (frames : Nat → FTE)
    (hinj : ∀ f g, f < N → g < N → f ≠ g →
      ((frames f).pid.toNat, (frames f).vpage.toNat)
        ≠ ((frames g).pid.toNat, (frames g).vpage.toNat))
    (hN : 0 < N) :
    ∀ (k : Nat), k ≤ N → ∀ (pt : Nat → Nat → PTE) (h : Nat) (fuel : Nat), h < N →
      k + 1 ≤ fuel →
      (∀ j, j < k → refOf frames pt ((h + j) % N) = true) →
      (k < N → refOf frames pt ((h + k) % N) = false) →
      clockLoop N frames fuel h pt
        = some ((h + k) % N, (((h + k) % N + 1) % N, clearScanned N frames pt h k)) := by
  intro k
  induction k with
  | zero =>
    intro _ pt h fuel hh hfuel _ hfalse
    obtain ⟨f, rfl⟩ : ∃ f, fuel = f + 1 := ⟨fuel - 1, by omega⟩
    have h0 : (h + 0) % N = h := by rw [Nat.add_zero, Nat.mod_eq_of_lt hh]
    have hr : refOf frames pt h = false := by
      have := hfalse hN
      rwa [h0] at this
    rw [clockLoop_succ, hr]
    simp [h0, clearScanned, Nat.mod_eq_of_lt hh]
  | succ k ih =>
    intro hkN pt h fuel hh hfuel htrue hfalse
    obtain ⟨f, rfl⟩ : ∃ f, fuel = f + 1 := ⟨fuel - 1, by omega⟩
    have h0 : (h + 0) % N = h := by rw [Nat.add_zero, Nat.mod_eq_of_lt hh]
    have hr : refOf frames pt h = true := by
      have := htrue 0 (Nat.succ_pos k)
      rwa [h0] at this
    have hstep : clockLoop N frames (f + 1) h pt
        = clockLoop N frames f ((h + 1) % N)
            (clearRef2 pt (frames h).pid.toNat (frames h).vpage.toNat) := by
      rw [clockLoop_succ, hr]
      simp
    have hh1 : (h + 1) % N < N := Nat.mod_lt _ hN
    have hshiftidx : ∀ j, ((h + 1) % N + j) % N = (h + (j + 1)) % N := by
      intro j
      rw [Nat.mod_add_mod]
      congr 1
      omega
    have htrue1 : ∀ j, j < k →
        refOf frames (clearRef2 pt (frames h).pid.toNat (frames h).vpage.toNat)
          (((h + 1) % N + j) % N) = true := by
      intro j hj
      rw [hshiftidx j]
      have hpne : (h + (j + 1)) % N ≠ h := by
        have := probe_ne (N := N) h (j + 1) 0 (by omega) hN (by omega)
        rwa [h0] at this
      rw [refOf_clearRef2_ne frames pt _ h
        (hinj _ _ (Nat.mod_lt _ hN) hh hpne)]
      exact htrue (j + 1) (by omega)
    have hfalse1 : k < N →
        refOf frames (clearRef2 pt (frames h).pid.toNat (frames h).vpage.toNat)
          (((h + 1) % N + k) % N) = false := by
      intro _
      rw [hshiftidx k]
      by_cases hkn : k + 1 < N
      · have hpne : (h + (k + 1)) % N ≠ h := by
          have := probe_ne (N := N) h (k + 1) 0 (by omega) hN (by omega)
          rwa [h0] at this
        rw [refOf_clearRef2_ne frames pt _ h
          (hinj _ _ (Nat.mod_lt _ hN) hh hpne)]
        exact hfalse hkn
      · have hkeq : k + 1 = N := by omega
        have : (h + (k + 1)) % N = h := by
          rw [hkeq, Nat.add_mod_right, Nat.mod_eq_of_lt hh]
        rw [this]
        exact refOf_clearRef2_self frames pt h
    have hc := ih (by omega) (clearRef2 pt (frames h).pid.toNat (frames h).vpage.toNat)
      ((h + 1) % N) f hh1 (by omega) htrue1 hfalse1
    rw [hstep, hc, clearScanned_shift N frames pt h hh k]
    congr 2
    · rw [hshiftidx k]
    · rw [hshiftidx k]


/-- C7: under the precondition that every frame is occupied by a present
PTE (distinct per frame, as the reverse-map invariant guarantees), the
Clock select terminates within 2·NUM_FRAMES iterations and returns the
first frame at or after the hand whose PTE has `referenced = 0` (the hand
itself when every frame was referenced), after clearing `referenced` on
every skipped frame; the new hand is one past the victim, modulo
NUM_FRAMES. -/
theorem c7_clock_select (N : Nat) (frames : Nat → FTE) (pt : Nat → Nat → PTE) (hand : Nat)
    (hN : 0 < N) (hh : hand < N)
    (hocc : ∀ f, f < N → (frames f).occupied = true ∧
        (pt (frames f).pid.toNat (frames f).vpage.toNat).present = true)
    (hinj : ∀ f g, f < N → g < N → f ≠ g →
        ((frames f).pid.toNat, (frames f).vpage.toNat)
          ≠ ((frames g).pid.toNat, (frames g).vpage.toNat)) :
    ∃ k, k ≤ N ∧
      clockLoop N frames (2 * N) hand pt
        = some ((hand + k) % N,
            (((hand + k) % N + 1) % N, clearScanned N frames pt hand k)) ∧
      (∀ j, j < k → refOf frames pt ((hand + j) % N) = true) ∧
      (k < N → refOf frames pt ((hand + k) % N) = false) := by
  by_cases hex : ∃ j, j < N ∧ refOf frames pt ((hand + j) % N) = false
  · obtain ⟨j0, hj0N, hj0⟩ := hex
    have hexx : ∃ j, refOf frames pt ((hand + j) % N) = false := ⟨j0, hj0⟩
    have hkfalse : refOf frames pt ((hand + Nat.find hexx) % N) = false := Nat.find_spec hexx
    have hkle : Nat.find hexx ≤ j0 := Nat.find_min' hexx hj0
    have hkN : Nat.find hexx < N := lt_of_le_of_lt hkle hj0N
    have htrue : ∀ j, j < Nat.find hexx → refOf frames pt ((hand + j) % N) = true := by
      intro j hj
      have hnm := Nat.find_min hexx hj
      cases hrf : refOf frames pt ((hand + j) % N)
      · exact absurd hrf hnm
      · rfl
    exact ⟨Nat.find hexx, le_of_lt hkN,
      clockLoop_spec N frames hinj hN (Nat.find hexx) (le_of_lt hkN) pt hand (2 * N) hh
        (by omega) htrue (fun _ => hkfalse), htrue, fun _ => hkfalse⟩
  · push_neg at hex
    have htrue : ∀ j, j < N → refOf frames pt ((hand + j) % N) = true := by
      intro j hj
      cases hrf : refOf frames pt ((hand + j) % N)
      · exact absurd hrf (hex j hj)
      · rfl
    exact ⟨N, le_refl N,
      clockLoop_spec N frames hinj hN N (le_refl N) pt hand (2 * N) hh (by omega) htrue
        (fun hc => absurd hc (lt_irrefl N)),
      htrue, fun hc => absurd hc (lt_irrefl N)⟩

/-- C7 (witness): two frames, hand at 0, frame 0 referenced and frame 1
not: the Clock select walks one step and picks frame 1. -/
theorem c7_witness :
    ∃ k, k ≤ 2 ∧
      clockLoop 2 sampleClockFrames (2 * 2) 0 sampleClockPT
        = some ((0 + k) % 2,
            (((0 + k) % 2 + 1) % 2, clearScanned 2 sampleClockFrames sampleClockPT 0 k)) ∧
      (∀ j, j < k → refOf sampleClockFrames sampleClockPT ((0 + j) % 2) = true) ∧
      (k < 2 → refOf sampleClockFrames sampleClockPT ((0 + k) % 2) = false) :=
  c7_clock_select 2 sampleClockFrames sampleClockPT 0 (by decide) (by decide)
    (fun f hf => by interval_cases f <;> exact ⟨by decide, by decide⟩)
    (fun f g hf hg hne => by
      interval_cases f <;> interval_cases g <;> first | exact absurd rfl hne | decide)

/-- The identity machine transition is an admissible pager effect. -/
theorem pagerOk_refl (t : MMU) : PagerOk t t :=
  ⟨rfl, rfl, rfl, rfl, rfl, rfl, rfl, rfl, rfl, rfl, fun _ => ⟨rfl, rfl, fun _ => rfl⟩⟩

/-- Fields `doEvict` leaves untouched. -/
theorem doEvict_fields (s : MMU) (f : Nat) :
    (doEvict s f).1.instCount = s.instCount ∧ (doEvict s f).1.wsCount = s.wsCount ∧
    (doEvict s f).1.curPid = s.curPid ∧ (doEvict s f).1.numFrames = s.numFrames ∧
    (doEvict s f).1.numProcs = s.numProcs ∧ (doEvict s f).1.freeFrames = s.freeFrames ∧
    (doEvict s f).1.lastUsed = s.lastUsed := by
  unfold doEvict
  by_cases h : (s.frames f).occupied = true
  · simp [h]
  · simp [h]

/-- Fields `doMap` leaves untouched. -/
theorem doMap_fields (s : MMU) (f v : Nat) :
    (doMap s f v).1.instCount = s.instCount ∧ (doMap s f v).1.wsCount = s.wsCount ∧
    (doMap s f v).1.curPid = s.curPid ∧ (doMap s f v).1.numFrames = s.numFrames ∧
    (doMap s f v).1.numProcs = s.numProcs ∧ (doMap s f v).1.freeFrames = s.freeFrames ∧
    (doMap s f v).1.lastUsed = s.lastUsed := by
  unfold doMap
  simp

/-- Fields `segvBump` leaves untouched. -/
theorem segvBump_fields (s : MMU) :
    (segvBump s).instCount = s.instCount ∧ (segvBump s).wsCount = s.wsCount ∧
    (segvBump s).curPid = s.curPid ∧ (segvBump s).numFrames = s.numFrames ∧
    (segvBump s).numProcs = s.numProcs ∧ (segvBump s).freeFrames = s.freeFrames ∧
    (segvBump s).frames = s.frames ∧ (segvBump s).lastUsed = s.lastUsed := by
  unfold segvBump
  simp

/-- Fields frame acquisition leaves untouched, for a well-behaved policy. -/
theorem acquireFrame_fields (pick : MMU → MMU × Nat) (s : MMU)
    (hp : ∀ t, PagerOk t (pick t).1) :
    (acquireFrame pick s).1.instCount = s.instCount ∧
    (acquireFrame pick s).1.wsCount = s.wsCount ∧
    (acquireFrame pick s).1.curPid = s.curPid ∧
    (acquireFrame pick s).1.numFrames = s.numFrames ∧
    (acquireFrame pick s).1.numProcs = s.numProcs := by
  obtain ⟨q1, q2, q3, q4, q5, q6, q7, q8, q9, q10, q11⟩ := hp s
  unfold acquireFrame
  cases hl : s.freeFrames with
  | nil => exact ⟨q6, q7, q5, q1, q2⟩
  | cons a rest => simp

/-- Fields the page-fault handler leaves untouched. -/
theorem handlePageFault_fields (pick : MMU → MMU × Nat) (s : MMU) (v : Nat)
    (hp : ∀ t, PagerOk t (pick t).1) :
    (handlePageFault pick s v).1.instCount = s.instCount ∧
    (handlePageFault pick s v).1.wsCount = s.wsCount ∧
    (handlePageFault pick s v).1.curPid = s.curPid ∧
    (handlePageFault pick s v).1.numFrames = s.numFrames ∧
    (handlePageFault pick s v).1.numProcs = s.numProcs := by
  obtain ⟨a1, a2, a3, a4, a5⟩ := acquireFrame_fields pick s hp
  obtain ⟨e1, e2, e3, e4, e5, _, _⟩ := doEvict_fields (acquireFrame pick s).1 (acquireFrame pick s).2.1
  obtain ⟨m1, m2, m3, m4, m5, _, _⟩ :=
    doMap_fields (doEvict (acquireFrame pick s).1 (acquireFrame pick s).2.1).1
      (acquireFrame pick s).2.1 v
  obtain ⟨g1, g2, g3, g4, g5, _, _, _⟩ := segvBump_fields s
  unfold handlePageFault
  split
  · exact ⟨by simp [m1, e1, a1], by simp [m2, e2, a2], by simp [m3, e3, a3],
      by simp [m4, e4, a4], by simp [m5, e5, a5]⟩
  · exact ⟨g1, g2, g3, g4, g5⟩


/-- Fields the memory-access handler leaves untouched. -/
theorem handleMemoryAccess_fields (pick : MMU → MMU × Nat) (s : MMU) (vp : Int) (w : Bool)
    (hp : ∀ t, PagerOk t (pick t).1) :
    (handleMemoryAccess pick s vp w).1.instCount = s.instCount ∧
    (handleMemoryAccess pick s vp w).1.wsCount = s.wsCount ∧
    (handleMemoryAccess pick s vp w).1.curPid = s.curPid ∧
    (handleMemoryAccess pick s vp w).1.numFrames = s.numFrames ∧
    (handleMemoryAccess pick s vp w).1.numProcs = s.numProcs := by
  obtain ⟨p1, p2, p3, p4, p5⟩ :=
    handlePageFault_fields pick (s.addCost COST_READ_WRITE) vp.toNat hp
  by_cases hr : vp < 0 ∨ (64 : Int) ≤ vp
  · refine ⟨?_, ?_, ?_, ?_, ?_⟩ <;> simp [handleMemoryAccess, hr, segvBump]
  · by_cases hpres : ((s.procs s.curPid.toNat).pageTable vp.toNat).present = true
    · refine ⟨?_, ?_, ?_, ?_, ?_⟩ <;>
        (simp only [handleMemoryAccess]; rw [if_neg hr]; simp [hpres]; split <;> simp)
    · refine ⟨?_, ?_, ?_, ?_, ?_⟩ <;>
        (simp only [handleMemoryAccess]; rw [if_neg hr]; simp [hpres]; split <;>
          simp [p1, p2, p3, p4, p5] <;> split <;> simp [p1, p2, p3, p4, p5])


/-- Fields one exit-loop iteration leaves untouched. -/
theorem exitStep_fields (pid : Int) (a : MMU × List Ev) (v : Nat) :
    (exitStep pid a v).1.instCount = a.1.instCount ∧
    (exitStep pid a v).1.wsCount = a.1.wsCount ∧
    (exitStep pid a v).1.curPid = a.1.curPid ∧
    (exitStep pid a v).1.numFrames = a.1.numFrames ∧
    (exitStep pid a v).1.numProcs = a.1.numProcs := by
  unfold exitStep
  by_cases h : ((a.1.procs pid.toNat).pageTable v).present = true
  · by_cases hmf : (((a.1.procs pid.toNat).pageTable v).modified
        && ((a.1.procs pid.toNat).pageTable v).file_mapped) = true
    · simp [h, hmf]
    · simp [h, hmf]
  · simp [h]

/-- Fields the whole exit loop leaves untouched. -/
theorem exitFold_fields (pid : Int) :
    ∀ (l : List Nat) (a : MMU × List Ev),
    (l.foldl (exitStep pid) a).1.instCount = a.1.instCount ∧
    (l.foldl (exitStep pid) a).1.wsCount = a.1.wsCount ∧
    (l.foldl (exitStep pid) a).1.curPid = a.1.curPid ∧
    (l.foldl (exitStep pid) a).1.numFrames = a.1.numFrames ∧
    (l.foldl (exitStep pid) a).1.numProcs = a.1.numProcs := by
  intro l
  induction l with
  | nil => intro a; exact ⟨rfl, rfl, rfl, rfl, rfl⟩
  | cons v l ih =>
    intro a
    obtain ⟨i1, i2, i3, i4, i5⟩ := ih (exitStep pid a v)
    obtain ⟨s1, s2, s3, s4, s5⟩ := exitStep_fields pid a v
    exact ⟨by rw [List.foldl_cons, i1, s1], by rw [List.foldl_cons, i2, s2],
      by rw [List.foldl_cons, i3, s3], by rw [List.foldl_cons, i4, s4],
      by rw [List.foldl_cons, i5, s5]⟩

/-- Fields the exit handler leaves untouched. -/
theorem exitCore_fields (s : MMU) (pid : Int) :
    (exitCore s pid).1.instCount = s.instCount ∧
    (exitCore s pid).1.wsCount = s.wsCount ∧
    (exitCore s pid).1.curPid = s.curPid ∧
    (exitCore s pid).1.numFrames = s.numFrames ∧
    (exitCore s pid).1.numProcs = s.numProcs := by
  obtain ⟨i1, i2, i3, i4, i5⟩ := exitFold_fields pid (List.range MAX_VPAGES) (s, [])
  exact ⟨by simp [exitCore, i1], by simp [exitCore, i2], by simp [exitCore, i3],
    by simp [exitCore, i4], by simp [exitCore, i5]⟩

/-- Fields the context-switch handler leaves untouched, and the new current pid. -/
theorem contextSwitch_fields (s : MMU) (p : Int) :
    (contextSwitch s p).instCount = s.instCount ∧
    (contextSwitch s p).wsCount = s.wsCount ∧
    (contextSwitch s p).numFrames = s.numFrames ∧
    (contextSwitch s p).numProcs = s.numProcs ∧
    (contextSwitch s p).curPid = p := by
  unfold contextSwitch
  split <;> simp

/-- One simulate iteration advances both instruction counters by one and
preserves the table sizes. -/
theorem stepInstr_counters (pick : MMU → MMU × Nat) (s : MMU) (i : Instr)
    (hp : ∀ t, PagerOk t (pick t).1) :
    (stepInstr pick s i).1.instCount = s.instCount + 1 ∧
    (stepInstr pick s i).1.wsCount = s.wsCount + 1 ∧
    (stepInstr pick s i).1.numFrames = s.numFrames ∧
    (stepInstr pick s i).1.numProcs = s.numProcs := by
  cases i with
  | ctx p =>
    obtain ⟨c1, c2, c3, c4, _⟩ := contextSwitch_fields { s with instCount := s.instCount + 1 } p
    exact ⟨by simp [stepInstr, c1], by simp [stepInstr, c2],
      by simp [stepInstr, c3], by simp [stepInstr, c4]⟩
  | read v =>
    obtain ⟨a1, a2, _, a4, a5⟩ :=
      handleMemoryAccess_fields pick { s with instCount := s.instCount + 1 } v false hp
    exact ⟨by simp [stepInstr, a1], by simp [stepInstr, a2],
      by simp [stepInstr, a4], by simp [stepInstr, a5]⟩
  | write v =>
    obtain ⟨a1, a2, _, a4, a5⟩ :=
      handleMemoryAccess_fields pick { s with instCount := s.instCount + 1 } v true hp
    exact ⟨by simp [stepInstr, a1], by simp [stepInstr, a2],
      by simp [stepInstr, a4], by simp [stepInstr, a5]⟩
  | exitp p =>
    obtain ⟨e1, e2, _, e4, e5⟩ := exitCore_fields { s with instCount := s.instCount + 1 } p
    exact ⟨by simp [stepInstr, handleProcessExitT6, e1],
      by simp [stepInstr, handleProcessExitT6, e2],
      by simp [stepInstr, handleProcessExitT6, e4],
      by simp [stepInstr, handleProcessExitT6, e5]⟩

/-- Counter and size bookkeeping of a whole run. -/
theorem runFrom_counters (picks : Nat → MMU → MMU × Nat)
    (hp : ∀ k t, PagerOk t ((picks k t).1)) :
    ∀ (l : List Instr) (k : Nat) (s : MMU),
    (runFrom picks k s l).instCount = s.instCount + l.length ∧
    (runFrom picks k s l).wsCount = s.wsCount + l.length ∧
    (runFrom picks k s l).numFrames = s.numFrames ∧
    (runFrom picks k s l).numProcs = s.numProcs := by
  intro l
  induction l with
  | nil => intro k s; exact ⟨rfl, rfl, rfl, rfl⟩
  | cons i l ih =>
    intro k s
    obtain ⟨s1, s2, s3, s4⟩ := stepInstr_counters (picks k) s i (hp k)
    obtain ⟨i1, i2, i3, i4⟩ := ih (k + 1) (stepInstr (picks k) s i).1
    refine ⟨?_, ?_, ?_, ?_⟩
    · show (runFrom picks (k + 1) (stepInstr (picks k) s i).1 l).instCount = _
      rw [i1, s1]
      simp [List.length_cons]
      omega
    · show (runFrom picks (k + 1) (stepInstr (picks k) s i).1 l).wsCount = _
      rw [i2, s2]
      simp [List.length_cons]
      omega
    · show (runFrom picks (k + 1) (stepInstr (picks k) s i).1 l).numFrames = _
      rw [i3, s3]
    · show (runFrom picks (k + 1) (stepInstr (picks k) s i).1 l).numProcs = _
      rw [i4, s4]


/-- Working-Set hooks recorded by the page-fault handler: a policy
consultation carries the pager's counter at entry, and every `last_used`
store carries the MMU's instruction counter at entry. -/
theorem handlePageFault_hooks (pick : MMU → MMU × Nat) (s : MMU) (v : Nat)
    (hp : ∀ t, PagerOk t (pick t).1) :
    (∀ t, Hook.selectCall t ∈ (handlePageFault pick s v).2.2 → t = s.wsCount) ∧
    (∀ fr t, Hook.lastUsedUpd fr t ∈ (handlePageFault pick s v).2.2 → t = s.instCount) := by
  have hmi : (doMap (doEvict (acquireFrame pick s).1 (acquireFrame pick s).2.1).1
      (acquireFrame pick s).2.1 v).1.instCount = s.instCount := by
    rw [(doMap_fields _ _ _).1, (doEvict_fields _ _).1, (acquireFrame_fields pick s hp).1]
  unfold handlePageFault
  split
  · constructor
    · intro t ht
      simp only [List.mem_append] at ht
      rcases ht with h1 | h2
      · by_cases hb : (acquireFrame pick s).2.2 = true
        · rw [if_pos hb] at h1
          simp at h1
          exact h1.symm ▸ rfl
        · rw [if_neg hb] at h1
          simp at h1
      · simp at h2
    · intro fr t ht
      simp only [List.mem_append] at ht
      rcases ht with h1 | h2
      · by_cases hb : (acquireFrame pick s).2.2 = true
        · rw [if_pos hb] at h1
          simp at h1
        · rw [if_neg hb] at h1
          simp at h1
      · simp at h2
        rw [h2.2, hmi]
  · constructor
    · intro t ht
      simp at ht
    · intro fr t ht
      simp at ht


/-- Working-Set hooks recorded by the memory-access handler: a policy
consultation carries the pager's counter at entry, and every `last_used`
store carries the MMU's instruction counter at entry. -/
theorem handleMemoryAccess_hooks (pick : MMU → MMU × Nat) (s : MMU) (vp : Int) (w : Bool)
    (hp : ∀ t, PagerOk t (pick t).1) :
    (∀ t, Hook.selectCall t ∈ (handleMemoryAccess pick s vp w).2.2 → t = s.wsCount) ∧
    (∀ fr t, Hook.lastUsedUpd fr t ∈ (handleMemoryAccess pick s vp w).2.2 →
      t = s.instCount) := by
  obtain ⟨pfs, pfl⟩ := handlePageFault_hooks pick (s.addCost COST_READ_WRITE) vp.toNat hp
  obtain ⟨f1, _, _, _, _⟩ :=
    handlePageFault_fields pick (s.addCost COST_READ_WRITE) vp.toNat hp
  by_cases hr : vp < 0 ∨ (64 : Int) ≤ vp
  · constructor
    · intro t ht
      simp [handleMemoryAccess, hr] at ht
    · intro fr t ht
      simp [handleMemoryAccess, hr] at ht
  · by_cases hpres : ((s.procs s.curPid.toNat).pageTable vp.toNat).present = true
    · constructor
      · intro t ht
        simp only [handleMemoryAccess, addCost_procs, addCost_curPid] at ht
        rw [if_neg hr, if_pos hpres] at ht
        split at ht
        · simp at ht
        · split at ht
          · simp at ht
          · simp at ht
      · intro fr t ht
        simp only [handleMemoryAccess, addCost_procs, addCost_curPid] at ht
        rw [if_neg hr, if_pos hpres] at ht
        split at ht
        · simp at ht
        · split at ht
          · simp at ht
          · simp at ht
            exact ht.2
    · constructor
      · intro t ht
        simp only [handleMemoryAccess, addCost_procs, addCost_curPid] at ht
        rw [if_neg hr, if_neg hpres] at ht
        split at ht
        · exact pfs t ht
        · split at ht
          · exact pfs t ht
          · simp only [List.mem_append] at ht
            rcases ht with h1 | h2
            · exact pfs t h1
            · simp at h2
      · intro fr t ht
        simp only [handleMemoryAccess, addCost_procs, addCost_curPid] at ht
        rw [if_neg hr, if_neg hpres] at ht
        split at ht
        · exact pfl fr t ht
        · split at ht
          · exact pfl fr t ht
          · simp only [List.mem_append] at ht
            rcases ht with h1 | h2
            · exact pfl fr t h1
            · simp at h2
              rw [h2.2]
              exact f1


/-- C10: the Working-Set pager's private counter is incremented only after
an instruction's handler returns, so while handling the instruction echoed
with number `k` it still equals `k` and that value is what any
`select_victim` call observes, while the MMU's counter has already been
incremented to `k + 1` and that is the timestamp every
`updateLastUsedTime` call of the instruction stores; a frame touched
during instruction `k` therefore carries `last_used` one greater than the
pager's notion of the current time. -/
theorem c10_ws_counter_skew (nf np : Nat) (vmaOf : Nat → List VMA)
    (picks : Nat → MMU → MMU × Nat)
    (hp : ∀ k t, PagerOk t ((picks k t).1))
    (l : List Instr) (k : Nat) (hk : k < l.length) :
    stepEcho (runFrom picks 0 (initMMU nf np vmaOf) (l.take k)) = k ∧
    (runFrom picks 0 (initMMU nf np vmaOf) (l.take k)).wsCount = k ∧
    (runFrom picks 0 (initMMU nf np vmaOf) (l.take k)).instCount = k ∧
    (∀ t, Hook.selectCall t
        ∈ (stepInstr (picks k) (runFrom picks 0 (initMMU nf np vmaOf) (l.take k))
            (l.get ⟨k, hk⟩)).2.2 → t = k) ∧
    (∀ fr t, Hook.lastUsedUpd fr t
        ∈ (stepInstr (picks k) (runFrom picks 0 (initMMU nf np vmaOf) (l.take k))
            (l.get ⟨k, hk⟩)).2.2 → t = k + 1) := by
  obtain ⟨hc1, hc2, _, _⟩ := runFrom_counters picks hp (l.take k) 0 (initMMU nf np vmaOf)
  have hlen : (l.take k).length = k := by
    rw [List.length_take]
    omega
  have hinst : (runFrom picks 0 (initMMU nf np vmaOf) (l.take k)).instCount = k := by
    rw [hc1, hlen]
    simp [initMMU]
  have hws : (runFrom picks 0 (initMMU nf np vmaOf) (l.take k)).wsCount = k := by
    rw [hc2, hlen]
    simp [initMMU]
  refine ⟨by simp [stepEcho, hinst], hws, hinst, ?_, ?_⟩
  · intro t ht
    cases hi : l.get ⟨k, hk⟩ with
    | ctx p =>
      rw [hi] at ht
      simp [stepInstr] at ht
    | exitp p =>
      rw [hi] at ht
      simp [stepInstr] at ht
    | read v =>
      rw [hi] at ht
      have hsel := (handleMemoryAccess_hooks (picks k)
        { runFrom picks 0 (initMMU nf np vmaOf) (l.take k) with
            instCount := (runFrom picks 0 (initMMU nf np vmaOf) (l.take k)).instCount + 1 }
        v false (hp k)).1 t (by simpa [stepInstr] using ht)
      rw [hsel]
      exact hws
    | write v =>
      rw [hi] at ht
      have hsel := (handleMemoryAccess_hooks (picks k)
        { runFrom picks 0 (initMMU nf np vmaOf) (l.take k) with
            instCount := (runFrom picks 0 (initMMU nf np vmaOf) (l.take k)).instCount + 1 }
        v true (hp k)).1 t (by simpa [stepInstr] using ht)
      rw [hsel]
      exact hws
  · intro fr t ht
    cases hi : l.get ⟨k, hk⟩ with
    | ctx p =>
      rw [hi] at ht
      simp [stepInstr] at ht
    | exitp p =>
      rw [hi] at ht
      simp [stepInstr] at ht
    | read v =>
      rw [hi] at ht
      have hupd := (handleMemoryAccess_hooks (picks k)
        { runFrom picks 0 (initMMU nf np vmaOf) (l.take k) with
            instCount := (runFrom picks 0 (initMMU nf np vmaOf) (l.take k)).instCount + 1 }
        v false (hp k)).2 fr t (by simpa [stepInstr] using ht)
      rw [hupd]
      show (runFrom picks 0 (initMMU nf np vmaOf) (l.take k)).instCount + 1 = k + 1
      rw [hinst]
    | write v =>
      rw [hi] at ht
      have hupd := (handleMemoryAccess_hooks (picks k)
        { runFrom picks 0 (initMMU nf np vmaOf) (l.take k) with
            instCount := (runFrom picks 0 (initMMU nf np vmaOf) (l.take k)).instCount + 1 }
        v true (hp k)).2 fr t (by simpa [stepInstr] using ht)
      rw [hupd]
      show (runFrom picks 0 (initMMU nf np vmaOf) (l.take k)).instCount + 1 = k + 1
      rw [hinst]

/-- C10 (witness): in the two-instruction run `c 0; r 0`, instruction 1's
handler sees pager time 1 and stamps `last_used` with 2. -/
theorem c10_witness :
    stepEcho (runFrom (fun _ t => (t, 0)) 0 (initMMU 1 1 (fun _ => [])) [Instr.ctx 0]) = 1 ∧
    (runFrom (fun _ t => (t, 0)) 0 (initMMU 1 1 (fun _ => [])) [Instr.ctx 0]).wsCount = 1 ∧
    (runFrom (fun _ t => (t, 0)) 0 (initMMU 1 1 (fun _ => [])) [Instr.ctx 0]).instCount = 1 ∧
    (∀ t, Hook.selectCall t
        ∈ (stepInstr (fun t => (t, 0))
            (runFrom (fun _ t => (t, 0)) 0 (initMMU 1 1 (fun _ => [])) [Instr.ctx 0])
            (Instr.read 0)).2.2 → t = 1) ∧
    (∀ fr t, Hook.lastUsedUpd fr t
        ∈ (stepInstr (fun t => (t, 0))
            (runFrom (fun _ t => (t, 0)) 0 (initMMU 1 1 (fun _ => [])) [Instr.ctx 0])
            (Instr.read 0)).2.2 → t = 2) :=
  c10_ws_counter_skew 1 1 (fun _ => []) (fun _ t => (t, 0)) (fun _ t => pagerOk_refl t)
    [Instr.ctx 0, Instr.read 0] 1 (by decide)


set_option maxRecDepth 8000

/-- Machines that agree on the map data have the same `MapsTo` relation. -/
theorem mapsTo_of_sameMap {s t : MMU} (h : SameMap s t) (p v f : Nat) :
    MapsTo t p v f ↔ MapsTo s p v f := by
  obtain ⟨h1, h2, h3, h4, h5⟩ := h
  unfold MapsTo
  rw [h2, (h5 p v).1, (h5 p v).2]

/-- The inductive invariant transfers along `SameMap` agreement. -/
theorem inv_of_sameMap {s t : MMU} (h : SameMap s t) (hInv : Inv s) : Inv t := by
  obtain ⟨h1, h2, h3, h4, h5⟩ := h
  obtain ⟨ho, hu, hb, hfb, hfr, hn⟩ := hInv
  refine ⟨?_, ?_, ?_, ?_, ?_, ?_⟩
  · intro f hf
    rw [h1] at hf
    rw [h3]
    constructor
    · intro hocc
      obtain ⟨p, v, hm⟩ := (ho f hf).1 hocc
      exact ⟨p, v, (mapsTo_of_sameMap ⟨h1, h2, h3, h4, h5⟩ p v f).mpr hm⟩
    · intro ⟨p, v, hm⟩
      exact (ho f hf).2 ⟨p, v, (mapsTo_of_sameMap ⟨h1, h2, h3, h4, h5⟩ p v f).mp hm⟩
  · intro p v p1 v1 f hm hm1
    exact hu p v p1 v1 f ((mapsTo_of_sameMap ⟨h1, h2, h3, h4, h5⟩ p v f).mp hm)
      ((mapsTo_of_sameMap ⟨h1, h2, h3, h4, h5⟩ p1 v1 f).mp hm1)
  · intro f hf hocc
    rw [h1] at hf
    rw [h3] at hocc ⊢
    obtain ⟨hp0, hv0, hm⟩ := hb f hf hocc
    exact ⟨hp0, hv0, (mapsTo_of_sameMap ⟨h1, h2, h3, h4, h5⟩ _ _ f).mpr hm⟩
  · intro p v f hm
    rw [h1]
    exact hfb p v f ((mapsTo_of_sameMap ⟨h1, h2, h3, h4, h5⟩ p v f).mp hm)
  · intro f hf
    rw [h4] at hf
    rw [h1]
    exact hfr f hf
  · rw [NumOk, h1]
    exact hn

/-- A `PagerOk` policy call leaves the reverse-map data unchanged. -/
theorem pagerOk_sameMap {s t : MMU} (h : PagerOk s t) : SameMap s t := by
  obtain ⟨h1, h2, h3, h4, h5, _, _, _, _, _, h11⟩ := h
  refine ⟨h1, h2, h3, h4, ?_⟩
  intro p u
  have he := (h11 p).2.2 u
  have hp := congrArg PTE.present he
  have hf := congrArg PTE.frame he
  simp [PTE.exceptRef] at hp hf
  exact ⟨hp, hf⟩


/-- `doEvict` on an occupied frame does not touch the frame table. -/
theorem doEvict_frames_occ (s : MMU) (f : Nat) (hocc : (s.frames f).occupied = true) (g : Nat) :
    (doEvict s f).1.frames g = if g = f then FTE.empty else s.frames g := by
  by_cases hg : g = f
  · subst hg
    simp [doEvict, hocc]
  · simp [doEvict, hocc, Function.update_noteq hg, hg]

/-- Pointwise page-table effect of `doEvict` on an occupied frame: only the occupant's PTE changes, to its evicted form. -/
theorem doEvict_pt_occ (s : MMU) (f : Nat) (hocc : (s.frames f).occupied = true) (p u : Nat) :
    ((doEvict s f).1.procs p).pageTable u
      = if p = (s.frames f).pid.toNat ∧ u = (s.frames f).vpage.toNat then
          evictPTE ((s.procs (s.frames f).pid.toNat).pageTable (s.frames f).vpage.toNat)
        else (s.procs p).pageTable u := by
  by_cases hp : p = (s.frames f).pid.toNat
  · subst hp
    by_cases hu : u = (s.frames f).vpage.toNat
    · subst hu
      simp [doEvict, hocc]
    · simp [doEvict, hocc, Function.update_noteq hu, hu]
  · simp [doEvict, hocc, Function.update_noteq hp, hp]

/-- `doEvict` is the identity on an unoccupied frame. -/
theorem doEvict_unocc (s : MMU) (f : Nat) (h : (s.frames f).occupied = false) :
    (doEvict s f).1 = s := by
  simp [doEvict, h]

/-- Frame-table effect of `doMap`: frame `f` is claimed for the current process, the rest are unchanged. -/
theorem doMap_frames (s : MMU) (f v : Nat) (g : Nat) :
    (doMap s f v).1.frames g
      = if g = f then { pid := s.curPid, vpage := (v : Int), occupied := true }
        else s.frames g := by
  by_cases hg : g = f
  · subst hg
    simp [doMap]
  · simp [doMap, Function.update_noteq hg, hg]

/-- Page-table effect of `doMap`: the faulting PTE becomes present in frame `f mod 128`, other PTEs are unchanged. -/
theorem doMap_pt_fields (s : MMU) (f v : Nat) :
    (((doMap s f v).1.procs s.curPid.toNat).pageTable v).present = true ∧
    (((doMap s f v).1.procs s.curPid.toNat).pageTable v).frame = f % 128 ∧
    (∀ u, u ≠ v → ((doMap s f v).1.procs s.curPid.toNat).pageTable u
        = (s.procs s.curPid.toNat).pageTable u) ∧
    (∀ p, p ≠ s.curPid.toNat → (doMap s f v).1.procs p = s.procs p) := by
  by_cases hinit : ((s.procs s.curPid.toNat).pageTable v).initialized = true
  · refine ⟨?_, ?_, ?_, ?_⟩
    · simp [doMap, hinit]
    · simp [doMap, hinit]
    · intro u hu
      simp [doMap, hinit, Function.update_noteq hu]
    · intro p hp
      simp [doMap, hinit, Function.update_noteq hp]
  · refine ⟨?_, ?_, ?_, ?_⟩
    · simp [doMap, hinit]
    · simp [doMap, hinit]
    · intro u hu
      simp [doMap, hinit, Function.update_noteq hu]
    · intro p hp
      simp [doMap, hinit, Function.update_noteq hp]


/-- `doEvict` preserves the invariant and leaves the target frame with no mapper. -/
theorem doEvict_inv (s : MMU) (f : Nat) (hf : f < s.numFrames) (hInv : Inv s) :
    Inv (doEvict s f).1 ∧
    ((doEvict s f).1.frames f).occupied = false ∧
    (∀ p u, ¬ MapsTo (doEvict s f).1 p u f) ∧
    (∀ p u, ((s.procs p).pageTable u).present = false →
      (((doEvict s f).1.procs p).pageTable u).present = false) := by
  obtain ⟨ho, hu, hb, hfb, hfr, hn⟩ := hInv
  by_cases hocc : (s.frames f).occupied = true
  · obtain ⟨hpid0, hvp0, hmt⟩ := hb f hf hocc
    have hframes := doEvict_frames_occ s f hocc
    have hpt := doEvict_pt_occ s f hocc
    obtain ⟨d1, d2, d3, d4, d5, d6, d7⟩ := doEvict_fields s f
    have hmaps : ∀ p u g, MapsTo (doEvict s f).1 p u g ↔
        (¬(p = (s.frames f).pid.toNat ∧ u = (s.frames f).vpage.toNat) ∧ MapsTo s p u g) := by
      intro p u g
      unfold MapsTo
      rw [d5, hpt p u]
      by_cases hpu : p = (s.frames f).pid.toNat ∧ u = (s.frames f).vpage.toNat
      · rw [if_pos hpu]
        constructor
        · intro ⟨_, _, hpres, _⟩
          rw [(evictPTE_fields _).1] at hpres
          exact absurd hpres (by simp)
        · intro ⟨hne, _⟩
          exact absurd hpu hne
      · rw [if_neg hpu]
        exact ⟨fun h => ⟨hpu, h⟩, fun h => h.2⟩
    have hnomap : ∀ p u, ¬ MapsTo (doEvict s f).1 p u f := by
      intro p u hm
      obtain ⟨hne, hm1⟩ := (hmaps p u f).mp hm
      exact hne (hu p u _ _ f hm1 hmt)
    refine ⟨⟨?_, ?_, ?_, ?_, ?_, ?_⟩, ?_, hnomap, ?_⟩
    · intro g hg
      rw [d4] at hg
      rw [hframes g]
      by_cases hgf : g = f
      · subst hgf
        rw [if_pos rfl]
        constructor
        · intro habs
          exact absurd habs (by simp [FTE.empty])
        · intro ⟨p, u, hm⟩
          exact absurd hm (hnomap p u)
      · rw [if_neg hgf]
        constructor
        · intro hoccg
          obtain ⟨p, u, hm⟩ := (ho g hg).1 hoccg
          by_cases hpu : p = (s.frames f).pid.toNat ∧ u = (s.frames f).vpage.toNat
          · obtain ⟨hp1, hu1⟩ := hpu
            subst hp1
            subst hu1
            have : g = f := by
              obtain ⟨_, _, _, hfr1⟩ := hm
              obtain ⟨_, _, _, hfr2⟩ := hmt
              rw [← hfr1, hfr2]
            exact absurd this hgf
          · exact ⟨p, u, (hmaps p u g).mpr ⟨hpu, hm⟩⟩
        · intro ⟨p, u, hm⟩
          exact (ho g hg).2 ⟨p, u, ((hmaps p u g).mp hm).2⟩
    · intro p u p1 u1 g hm hm1
      exact hu p u p1 u1 g ((hmaps p u g).mp hm).2 ((hmaps p1 u1 g).mp hm1).2
    · intro g hg hoccg
      rw [d4] at hg
      rw [hframes g] at hoccg ⊢
      by_cases hgf : g = f
      · rw [if_pos hgf] at hoccg
        exact absurd hoccg (by simp [FTE.empty])
      · rw [if_neg hgf] at hoccg ⊢
        obtain ⟨hp0, hv0, hmg⟩ := hb g hg hoccg
        refine ⟨hp0, hv0, (hmaps _ _ g).mpr ⟨?_, hmg⟩⟩
        intro ⟨he1, he2⟩
        have : g = f := by
          obtain ⟨_, _, _, hfr1⟩ := hmg
          obtain ⟨_, _, _, hfr2⟩ := hmt
          rw [← hfr1, he1, he2, hfr2]
        exact absurd this hgf
    · intro p u g hm
      rw [d4]
      exact hfb p u g ((hmaps p u g).mp hm).2
    · intro g hg
      rw [d6] at hg
      rw [d4]
      exact hfr g hg
    · rw [NumOk, d4]
      exact hn
    · rw [hframes f, if_pos rfl]
      simp [FTE.empty]
    · intro p u hpres
      rw [hpt p u]
      by_cases hpu : p = (s.frames f).pid.toNat ∧ u = (s.frames f).vpage.toNat
      · rw [if_pos hpu, (evictPTE_fields _).1]
      · rw [if_neg hpu]
        exact hpres
  · have hocc1 : (s.frames f).occupied = false := by
      cases h : (s.frames f).occupied
      · rfl
      · exact absurd h hocc
    rw [doEvict_unocc s f hocc1]
    refine ⟨⟨ho, hu, hb, hfb, hfr, hn⟩, hocc1, ?_, fun p u h => h⟩
    intro p u hm
    have := (ho f hf).2 ⟨p, u, hm⟩
    rw [hocc1] at this
    exact absurd this (by simp)


/-- `doMap` restores the invariant after mapping a frame with no remaining mapper. -/
theorem doMap_inv (s : MMU) (f v : Nat) (hf : f < s.numFrames) (hv : v < 64)
    (hcur : CurOk s) (hInv : Inv s)
    (hunocc : (s.frames f).occupied = false)
    (hnomap : ∀ p u, ¬ MapsTo s p u f)
    (hnp : ((s.procs s.curPid.toNat).pageTable v).present = false) :
    Inv (doMap s f v).1 := by
  obtain ⟨ho, hu, hb, hfb, hfr, hn⟩ := hInv
  obtain ⟨m1, m2, m3, m4, m5, m6, m7⟩ := doMap_fields s f v
  have hframes := doMap_frames s f v
  obtain ⟨hp1, hp2, hp3, hp4⟩ := doMap_pt_fields s f v
  have hfid : f % 128 = f := Nat.mod_eq_of_lt (lt_of_lt_of_le hf hn.2)
  have hptfull : ∀ p u, ¬(p = s.curPid.toNat ∧ u = v) →
      ((doMap s f v).1.procs p).pageTable u = (s.procs p).pageTable u := by
    intro p u hpu
    by_cases hp : p = s.curPid.toNat
    · subst hp
      by_cases hu1 : u = v
      · exact absurd ⟨rfl, hu1⟩ hpu
      · exact hp3 u hu1
    · rw [hp4 p hp]
  have hmaps : ∀ p u g, MapsTo (doMap s f v).1 p u g ↔
      ((p = s.curPid.toNat ∧ u = v ∧ g = f) ∨
        (¬(p = s.curPid.toNat ∧ u = v) ∧ MapsTo s p u g)) := by
    intro p u g
    by_cases hpu : p = s.curPid.toNat ∧ u = v
    · obtain ⟨hpe, hue⟩ := hpu
      subst hpe
      subst hue
      unfold MapsTo
      rw [m5]
      constructor
      · intro ⟨_, _, _, hfrm⟩
        rw [hp2, hfid] at hfrm
        exact Or.inl ⟨rfl, rfl, hfrm.symm⟩
      · intro hor
        rcases hor with ⟨_, _, hg⟩ | ⟨hne, _⟩
        · subst hg
          exact ⟨hcur.2, hv, hp1, by rw [hp2, hfid]⟩
        · exact absurd ⟨rfl, rfl⟩ hne
    · unfold MapsTo
      rw [m5, hptfull p u hpu]
      constructor
      · intro h
        exact Or.inr ⟨hpu, h⟩
      · intro hor
        rcases hor with ⟨hp0, hu0, _⟩ | ⟨_, h⟩
        · exact absurd ⟨hp0, hu0⟩ hpu
        · exact h
  refine ⟨?_, ?_, ?_, ?_, ?_, ?_⟩
  · intro g hg
    rw [m4] at hg
    rw [hframes g]
    by_cases hgf : g = f
    · subst hgf
      rw [if_pos rfl]
      constructor
      · intro _
        exact ⟨s.curPid.toNat, v, (hmaps _ _ g).mpr (Or.inl ⟨rfl, rfl, rfl⟩)⟩
      · intro _
        rfl
    · rw [if_neg hgf]
      constructor
      · intro hoccg
        obtain ⟨p, u, hm⟩ := (ho g hg).1 hoccg
        refine ⟨p, u, (hmaps p u g).mpr (Or.inr ⟨?_, hm⟩)⟩
        intro ⟨hp0, hu0⟩
        subst hp0
        subst hu0
        exact absurd hm.2.2.1 (by rw [hnp]; simp)
      · intro ⟨p, u, hm⟩
        rcases (hmaps p u g).mp hm with ⟨_, _, hgf1⟩ | ⟨_, hm1⟩
        · exact absurd hgf1 hgf
        · exact (ho g hg).2 ⟨p, u, hm1⟩
  · intro p u p1 u1 g hm hm1
    rcases (hmaps p u g).mp hm with ⟨e1, e2, e3⟩ | ⟨hne, hmm⟩
    · rcases (hmaps p1 u1 g).mp hm1 with ⟨e4, e5, _⟩ | ⟨_, hmm1⟩
      · rw [e1, e2, e4, e5]
        exact ⟨rfl, rfl⟩
      · subst e3
        exact absurd hmm1 (hnomap p1 u1)
    · rcases (hmaps p1 u1 g).mp hm1 with ⟨_, _, e6⟩ | ⟨_, hmm1⟩
      · subst e6
        exact absurd hmm (hnomap p u)
      · exact hu p u p1 u1 g hmm hmm1
  · intro g hg hoccg
    rw [m4] at hg
    rw [hframes g] at hoccg ⊢
    by_cases hgf : g = f
    · subst hgf
      rw [if_pos rfl]
      refine ⟨hcur.1, by simp, ?_⟩
      have hx : ((⟨s.curPid, (v : Int), true⟩ : FTE)).pid.toNat = s.curPid.toNat := rfl
      have hy : ((⟨s.curPid, (v : Int), true⟩ : FTE)).vpage.toNat = v := by simp
      rw [hx, hy]
      exact (hmaps _ _ g).mpr (Or.inl ⟨rfl, rfl, rfl⟩)
    · rw [if_neg hgf] at hoccg ⊢
      obtain ⟨hpg0, hvg0, hmg⟩ := hb g hg hoccg
      refine ⟨hpg0, hvg0, (hmaps _ _ g).mpr (Or.inr ⟨?_, hmg⟩)⟩
      intro ⟨hp0, hu0⟩
      rw [hp0, hu0] at hmg
      exact absurd hmg.2.2.1 (by rw [hnp]; simp)
  · intro p u g hm
    rw [m4]
    rcases (hmaps p u g).mp hm with ⟨_, _, hgf⟩ | ⟨_, hmm⟩
    · rw [hgf]
      exact hf
    · exact hfb p u g hmm
  · intro g hg
    rw [m6] at hg
    rw [m4]
    exact hfr g hg
  · rw [NumOk, m4]
    exact hn


/-- Rewriting the pager's `last_used` array preserves the invariant. -/
theorem inv_lastUsed (s : MMU) (g : Nat → Nat) (h : Inv s) : Inv { s with lastUsed := g } :=
  inv_of_sameMap ⟨rfl, rfl, rfl, rfl, fun _ _ => ⟨rfl, rfl⟩⟩ h

/-- The SEGV statistics bump leaves the reverse-map data unchanged. -/
theorem segvBump_sameMap (s : MMU) : SameMap s (segvBump s) := by
  refine ⟨rfl, rfl, rfl, rfl, ?_⟩
  intro p u
  by_cases hp : p = s.curPid.toNat
  · subst hp
    constructor <;> simp [segvBump]
  · constructor <;> simp [segvBump, Function.update_noteq hp]

/-- Popping the head of the free list preserves the invariant and yields an in-bounds, unoccupied and unmapped frame. -/
theorem inv_freePop (s : MMU) (a : Nat) (rest : List Nat) (hl : s.freeFrames = a :: rest)
    (hInv : Inv s) : Inv { s with freeFrames := rest } := by
  obtain ⟨ho, hu, hb, hfb, hfr, hn⟩ := hInv
  refine ⟨ho, hu, hb, hfb, ?_, hn⟩
  intro g hg
  exact hfr g (by rw [hl]; exact List.mem_cons_of_mem a hg)

/-- `allocate_frame` preserves the invariant and returns an in-bounds frame; a frame from the free list arrives unoccupied and unmapped. -/
theorem acquireFrame_inv (pick : MMU → MMU × Nat) (s : MMU)
    (hpick : ∀ t, PagerOk t (pick t).1 ∧ (0 < t.numFrames → (pick t).2 < t.numFrames))
    (hInv : Inv s) :
    Inv (acquireFrame pick s).1 ∧
    (acquireFrame pick s).2.1 < (acquireFrame pick s).1.numFrames ∧
    (acquireFrame pick s).1.curPid = s.curPid ∧
    (acquireFrame pick s).1.numProcs = s.numProcs ∧
    (∀ p u, (((acquireFrame pick s).1.procs p).pageTable u).present
        = ((s.procs p).pageTable u).present) := by
  unfold acquireFrame
  cases hl : s.freeFrames with
  | cons a rest =>
    refine ⟨inv_freePop s a rest hl hInv, ?_, rfl, rfl, fun _ _ => rfl⟩
    have := hInv.2.2.2.2.1 a (by rw [hl]; exact List.mem_cons_self a rest)
    exact this
  | nil =>
    obtain ⟨q1, q2, q3, q4, q5, q6, q7, q8, q9, q10, q11⟩ := (hpick s).1
    have hsm := pagerOk_sameMap (hpick s).1
    refine ⟨inv_of_sameMap hsm hInv, ?_, q5, q2, ?_⟩
    · rw [q1]
      exact (hpick s).2 hInv.2.2.2.2.2.1
    · intro p u
      exact (hsm.2.2.2.2 p u).1


/-- `handlePageFault` preserves the inductive invariant. -/
theorem handlePageFault_inv (pick : MMU → MMU × Nat)
    (hpick : ∀ t, PagerOk t (pick t).1 ∧ (0 < t.numFrames → (pick t).2 < t.numFrames))
    (s : MMU) (v : Nat) (hv : v < 64)
    (hnp : ((s.procs s.curPid.toNat).pageTable v).present = false)
    (hcur : CurOk s) (hInv : Inv s) :
    Inv (handlePageFault pick s v).1 := by
  by_cases hval : (s.procs s.curPid.toNat).isValidVpage v = true
  · obtain ⟨hInv1, hfb1, hcp1, hnp1, hpres1⟩ := acquireFrame_inv pick s hpick hInv
    obtain ⟨hInvE, hoccE, hnomapE, hpresE⟩ :=
      doEvict_inv (acquireFrame pick s).1 (acquireFrame pick s).2.1 hfb1 hInv1
    obtain ⟨d1, d2, d3, d4, d5, d6, d7⟩ :=
      doEvict_fields (acquireFrame pick s).1 (acquireFrame pick s).2.1
    have hcur1 : CurOk (acquireFrame pick s).1 := by
      unfold CurOk
      rw [hcp1, hnp1]
      exact hcur
    have hnpacq : (((acquireFrame pick s).1.procs
        (acquireFrame pick s).1.curPid.toNat).pageTable v).present = false := by
      rw [hcp1, hpres1]
      exact hnp
    have hcurE : CurOk (doEvict (acquireFrame pick s).1 (acquireFrame pick s).2.1).1 := by
      unfold CurOk
      rw [d3, d5]
      exact hcur1
    have hnpE : (((doEvict (acquireFrame pick s).1 (acquireFrame pick s).2.1).1.procs
        (doEvict (acquireFrame pick s).1 (acquireFrame pick s).2.1).1.curPid.toNat).pageTable
          v).present = false := by
      rw [d3]
      exact hpresE _ _ hnpacq
    have hfbE : (acquireFrame pick s).2.1
        < (doEvict (acquireFrame pick s).1 (acquireFrame pick s).2.1).1.numFrames := by
      rw [d4]
      exact hfb1
    have hInvM := doMap_inv (doEvict (acquireFrame pick s).1 (acquireFrame pick s).2.1).1
      (acquireFrame pick s).2.1 v hfbE hv hcurE hInvE hoccE hnomapE hnpE
    have hres : (handlePageFault pick s v).1
        = { (doMap (doEvict (acquireFrame pick s).1 (acquireFrame pick s).2.1).1
              (acquireFrame pick s).2.1 v).1 with
            lastUsed := Function.update
              (doMap (doEvict (acquireFrame pick s).1 (acquireFrame pick s).2.1).1
                (acquireFrame pick s).2.1 v).1.lastUsed
              ((acquireFrame pick s).2.1 % 128)
              (doMap (doEvict (acquireFrame pick s).1 (acquireFrame pick s).2.1).1
                (acquireFrame pick s).2.1 v).1.instCount } := by
      simp [handlePageFault, hval]
    rw [hres]
    exact inv_lastUsed _ _ hInvM
  · have hres : (handlePageFault pick s v).1 = segvBump s := by
      simp [handlePageFault, hval]
    rw [hres]
    exact inv_of_sameMap (segvBump_sameMap s) hInv


/-- `SameMap` agreement composes. -/
theorem sameMap_trans {s t u : MMU} (h1 : SameMap s t) (h2 : SameMap t u) : SameMap s u := by
  obtain ⟨a1, a2, a3, a4, a5⟩ := h1
  obtain ⟨b1, b2, b3, b4, b5⟩ := h2
  refine ⟨by rw [b1, a1], by rw [b2, a2], by rw [b3, a3], by rw [b4, a4], ?_⟩
  intro p u
  exact ⟨by rw [(b5 p u).1, (a5 p u).1], by rw [(b5 p u).2, (a5 p u).2]⟩

/-- Charging cost leaves the reverse-map data unchanged. -/
theorem addCost_sameMap (s : MMU) (c : Nat) : SameMap s (s.addCost c) :=
  ⟨rfl, rfl, rfl, rfl, fun _ _ => ⟨rfl, rfl⟩⟩

/-- Bumping per-process statistics leaves the reverse-map data unchanged. -/
theorem modStats_sameMap (s : MMU) (p : Nat) (g : Stats → Stats) :
    SameMap s (s.modStats p g) := by
  refine ⟨rfl, rfl, rfl, rfl, ?_⟩
  intro q u
  by_cases hq : q = p
  · subst hq
    constructor <;> simp
  · constructor <;> simp [Function.update_noteq hq]

/-- Rewriting `last_used` leaves the reverse-map data unchanged. -/
theorem lastUsed_sameMap (s : MMU) (g : Nat → Nat) : SameMap s { s with lastUsed := g } :=
  ⟨rfl, rfl, rfl, rfl, fun _ _ => ⟨rfl, rfl⟩⟩

/-- Writing a PTE that keeps its `present` and `frame` fields leaves the reverse-map data unchanged. -/
theorem setPTE_sameMap (s : MMU) (p0 v0 : Nat) (pte : PTE)
    (hpres : pte.present = ((s.procs p0).pageTable v0).present)
    (hfrm : pte.frame = ((s.procs p0).pageTable v0).frame) :
    SameMap s (s.setPTE p0 v0 pte) := by
  refine ⟨rfl, rfl, rfl, rfl, ?_⟩
  intro p u
  by_cases hp : p = p0
  · subst hp
    by_cases hu : u = v0
    · subst hu
      constructor <;> simp [hpres, hfrm]
    · constructor <;> simp [Function.update_noteq hu]
  · constructor <;> simp [Function.update_noteq hp]

set_option maxHeartbeats 2000000 in
/-- `handleMemoryAccess` preserves the inductive invariant. -/
theorem handleMemoryAccess_inv (pick : MMU → MMU × Nat)
    (hpick : ∀ t, PagerOk t (pick t).1 ∧ (0 < t.numFrames → (pick t).2 < t.numFrames))
    (s : MMU) (vp : Int) (w : Bool) (hcur : CurOk s) (hInv : Inv s) :
    Inv (handleMemoryAccess pick s vp w).1 := by
  have hInv0 : Inv (s.addCost COST_READ_WRITE) :=
    inv_of_sameMap (addCost_sameMap s COST_READ_WRITE) hInv
  by_cases hr : vp < 0 ∨ (64 : Int) ≤ vp
  · have hres : (handleMemoryAccess pick s vp w).1 = segvBump (s.addCost COST_READ_WRITE) := by
      simp [handleMemoryAccess, hr]
    rw [hres]
    exact inv_of_sameMap (segvBump_sameMap _) hInv0
  · have hv64 : vp.toNat < 64 := by omega
    have hcur0 : CurOk (s.addCost COST_READ_WRITE) := hcur
    by_cases hpres : ((s.procs s.curPid.toNat).pageTable vp.toNat).present = true
    · simp only [handleMemoryAccess, addCost_procs, addCost_curPid]
      rw [if_neg hr, if_pos hpres]
      simp only [addCost_procs, addCost_curPid]
      rw [if_neg (by simp [hpres])]
      split
      · refine inv_of_sameMap
          (sameMap_trans (addCost_sameMap s COST_READ_WRITE)
            (sameMap_trans (setPTE_sameMap _ _ _ _ ?_ ?_)
              (sameMap_trans (modStats_sameMap _ _ _) (addCost_sameMap _ _)))) hInv
        · rfl
        · rfl
      · refine inv_of_sameMap
          (sameMap_trans (addCost_sameMap s COST_READ_WRITE)
            (sameMap_trans (setPTE_sameMap _ _ _ _ ?_ ?_) (lastUsed_sameMap _ _))) hInv
        · rfl
        · rfl
    · have hnp0 : (((s.addCost COST_READ_WRITE).procs
          (s.addCost COST_READ_WRITE).curPid.toNat).pageTable vp.toNat).present = false := by
        simp only [addCost_procs, addCost_curPid]
        cases h : ((s.procs s.curPid.toNat).pageTable vp.toNat).present
        · rfl
        · exact absurd h hpres
      have hInvF : Inv (handlePageFault pick (s.addCost COST_READ_WRITE) vp.toNat).1 :=
        handlePageFault_inv pick hpick _ vp.toNat hv64 hnp0 hcur0 hInv0
      simp only [handleMemoryAccess, addCost_procs, addCost_curPid]
      rw [if_neg hr, if_neg hpres]
      generalize hF : handlePageFault pick (s.addCost COST_READ_WRITE) vp.toNat = F
      rw [hF] at hInvF
      split
      · exact hInvF
      · split
        · refine inv_of_sameMap
            (sameMap_trans (setPTE_sameMap _ _ _ _ ?_ ?_)
              (sameMap_trans (modStats_sameMap _ _ _) (addCost_sameMap _ _))) hInvF
          · rfl
          · rfl
        · refine inv_of_sameMap
            (sameMap_trans (setPTE_sameMap _ _ _ _ ?_ ?_) (lastUsed_sameMap _ _)) hInvF
          · rfl
          · rfl


/-- The exit loop's PTE rewrite clears `present` and `paged_out` on a present page. -/
theorem exitPTE_present_true (pte : PTE) (hp : pte.present = true) :
    (exitPTE pte).present = false := by
  simp [exitPTE, hp]

/-- On an absent page the exit loop only clears `paged_out`. -/
theorem exitPTE_absent (pte : PTE) (hp : pte.present = false) :
    (exitPTE pte).present = pte.present ∧ (exitPTE pte).frame = pte.frame := by
  simp [exitPTE, hp]

/-- One exit-loop iteration on a present page frees exactly the page's frame. -/
theorem exitStep_frames_pres (pid : Int) (s : MMU) (evs : List Ev) (v : Nat)
    (hp : ((s.procs pid.toNat).pageTable v).present = true) :
    (exitStep pid (s, evs) v).1.frames
      = Function.update s.frames ((s.procs pid.toNat).pageTable v).frame FTE.empty ∧
    (exitStep pid (s, evs) v).1.freeFrames
      = s.freeFrames ++ [((s.procs pid.toNat).pageTable v).frame] := by
  by_cases hmf : (((s.procs pid.toNat).pageTable v).modified
      && ((s.procs pid.toNat).pageTable v).file_mapped) = true
  · constructor <;> simp [exitStep, hp, hmf]
  · constructor <;> simp [exitStep, hp, hmf]

/-- One exit-loop iteration on an absent page does not touch the frame table or free list. -/
theorem exitStep_frames_abs (pid : Int) (s : MMU) (evs : List Ev) (v : Nat)
    (hp : ((s.procs pid.toNat).pageTable v).present = false) :
    (exitStep pid (s, evs) v).1.frames = s.frames ∧
    (exitStep pid (s, evs) v).1.freeFrames = s.freeFrames := by
  constructor <;> simp [exitStep, hp]

/-- One exit-loop iteration preserves the inductive invariant. -/
theorem exitStep_inv (pid : Int) (s : MMU) (evs : List Ev) (v : Nat) (hv : v < 64)
    (hpn : pid.toNat < s.numProcs) (hInv : Inv s) :
    Inv (exitStep pid (s, evs) v).1 := by
  obtain ⟨ho, hu, hb, hfb, hfr, hn⟩ := hInv
  obtain ⟨he, hq, hpt, hcu, hcf⟩ := exitStep_spec pid s evs v
  obtain ⟨e1, e2, e3, e4, e5⟩ := exitStep_fields pid (s, evs) v
  have hptx : ∀ p u, ((exitStep pid (s, evs) v).1.procs p).pageTable u
      = if p = pid.toNat ∧ u = v then exitPTE ((s.procs pid.toNat).pageTable v)
        else (s.procs p).pageTable u := by
    intro p u
    by_cases hp1 : p = pid.toNat
    · subst hp1
      rw [hpt]
      by_cases hu1 : u = v
      · subst hu1
        rw [if_pos ⟨rfl, rfl⟩, Function.update_same]
      · rw [if_neg (by intro h; exact hu1 h.2), Function.update_noteq hu1]
    · rw [if_neg (by intro h; exact hp1 h.1), hq p hp1]
  by_cases hp : ((s.procs pid.toNat).pageTable v).present = true
  · have hmt : MapsTo s pid.toNat v ((s.procs pid.toNat).pageTable v).frame :=
      ⟨hpn, hv, hp, rfl⟩
    have hfrlt : ((s.procs pid.toNat).pageTable v).frame < s.numFrames := hfb _ _ _ hmt
    obtain ⟨hframes, hfree⟩ := exitStep_frames_pres pid s evs v hp
    have hmaps : ∀ p u g, MapsTo (exitStep pid (s, evs) v).1 p u g ↔
        (¬(p = pid.toNat ∧ u = v) ∧ MapsTo s p u g) := by
      intro p u g
      unfold MapsTo
      rw [e5, hptx p u]
      by_cases hpu : p = pid.toNat ∧ u = v
      · rw [if_pos hpu]
        constructor
        · intro ⟨_, _, hpres, _⟩
          rw [exitPTE_present_true _ hp] at hpres
          exact absurd hpres (by simp)
        · intro ⟨hne, _⟩
          exact absurd hpu hne
      · rw [if_neg hpu]
        exact ⟨fun h => ⟨hpu, h⟩, fun h => h.2⟩
    refine ⟨?_, ?_, ?_, ?_, ?_, ?_⟩
    · intro g hg
      rw [e4] at hg
      rw [hframes]
      by_cases hgf : g = ((s.procs pid.toNat).pageTable v).frame
      · subst hgf
        rw [Function.update_same]
        constructor
        · intro habs
          exact absurd habs (by simp [FTE.empty])
        · intro ⟨p, u, hm⟩
          obtain ⟨hne, hm1⟩ := (hmaps p u _).mp hm
          exact absurd (hu p u _ _ _ hm1 hmt) hne
      · rw [Function.update_noteq hgf]
        constructor
        · intro hoccg
          obtain ⟨p, u, hm⟩ := (ho g hg).1 hoccg
          refine ⟨p, u, (hmaps p u g).mpr ⟨?_, hm⟩⟩
          intro ⟨hp0, hu0⟩
          subst hp0
          subst hu0
          exact hgf (hm.2.2.2.symm ▸ rfl)
        · intro ⟨p, u, hm⟩
          exact (ho g hg).2 ⟨p, u, ((hmaps p u g).mp hm).2⟩
    · intro p u p1 u1 g hm hm1
      exact hu p u p1 u1 g ((hmaps p u g).mp hm).2 ((hmaps p1 u1 g).mp hm1).2
    · intro g hg hoccg
      rw [e4] at hg
      rw [hframes] at hoccg ⊢
      by_cases hgf : g = ((s.procs pid.toNat).pageTable v).frame
      · subst hgf
        rw [Function.update_same] at hoccg
        exact absurd hoccg (by simp [FTE.empty])
      · rw [Function.update_noteq hgf] at hoccg ⊢
        obtain ⟨hp0, hv0, hmg⟩ := hb g hg hoccg
        refine ⟨hp0, hv0, (hmaps _ _ g).mpr ⟨?_, hmg⟩⟩
        intro ⟨he1, he2⟩
        rw [he1, he2] at hmg
        exact hgf (hmg.2.2.2.symm ▸ rfl)
    · intro p u g hm
      rw [e4]
      exact hfb p u g ((hmaps p u g).mp hm).2
    · intro g hg
      rw [hfree] at hg
      rw [e4]
      rcases List.mem_append.mp hg with h1 | h2
      · exact hfr g h1
      · rw [List.mem_singleton.mp h2]
        exact hfrlt
    · rw [NumOk, e4]
      exact hn
  · have hpf : ((s.procs pid.toNat).pageTable v).present = false := by
      cases h : ((s.procs pid.toNat).pageTable v).present
      · rfl
      · exact absurd h hp
    obtain ⟨hframes, hfree⟩ := exitStep_frames_abs pid s evs v hpf
    refine inv_of_sameMap ⟨e4, e5, hframes, hfree, ?_⟩ ⟨ho, hu, hb, hfb, hfr, hn⟩
    intro p u
    rw [hptx p u]
    by_cases hpu : p = pid.toNat ∧ u = v
    · rw [if_pos hpu]
      obtain ⟨hp1, hu1⟩ := hpu
      subst hp1
      subst hu1
      exact ⟨(exitPTE_absent _ hpf).1, (exitPTE_absent _ hpf).2⟩
    · rw [if_neg hpu]
      exact ⟨rfl, rfl⟩


/-- The folded exit loop preserves the inductive invariant. -/
theorem exitFold_inv (pid : Int) : ∀ (l : List Nat), (∀ u ∈ l, u < 64) →
    ∀ (s : MMU) (evs : List Ev), pid.toNat < s.numProcs → Inv s →
    Inv (l.foldl (exitStep pid) (s, evs)).1 := by
  intro l
  induction l with
  | nil => intro _ s evs _ h; exact h
  | cons v l ih =>
    intro hall s evs hpn hInv
    have hfold : (v :: l).foldl (exitStep pid) (s, evs)
        = l.foldl (exitStep pid) ((exitStep pid (s, evs) v).1, (exitStep pid (s, evs) v).2) := by
      simp [List.foldl_cons]
    rw [hfold]
    have hinv1 := exitStep_inv pid s evs v (hall v (by simp)) hpn hInv
    have hpn1 : pid.toNat < (exitStep pid (s, evs) v).1.numProcs := by
      rw [(exitStep_fields pid (s, evs) v).2.2.2.2]
      exact hpn
    exact ih (fun u hu => hall u (by simp [hu])) _ _ hpn1 hinv1

/-- `handleProcessExit`'s page loop preserves the inductive invariant. -/
theorem exitCore_inv (s : MMU) (pid : Int) (hpn : pid.toNat < s.numProcs) (hInv : Inv s) :
    Inv (exitCore s pid).1 := by
  have h := exitFold_inv pid (List.range MAX_VPAGES)
    (fun u hu => by simpa [MAX_VPAGES] using List.mem_range.mp hu) s [] hpn hInv
  exact inv_of_sameMap ⟨rfl, rfl, rfl, rfl, fun _ _ => ⟨rfl, rfl⟩⟩ h

/-- A context switch leaves the reverse-map data unchanged. -/
theorem contextSwitch_sameMap (s : MMU) (p : Int) : SameMap s (contextSwitch s p) := by
  unfold contextSwitch
  split
  · exact ⟨rfl, rfl, rfl, rfl, fun _ _ => ⟨rfl, rfl⟩⟩
  · exact ⟨rfl, rfl, rfl, rfl, fun _ _ => ⟨rfl, rfl⟩⟩

/-- `CurOk` transfers along equal `curPid` and `numProcs`. -/
theorem curOk_of {s t : MMU} (h1 : t.curPid = s.curPid) (h2 : t.numProcs = s.numProcs)
    (hc : CurOk s) : CurOk t := by
  unfold CurOk
  rw [h1, h2]
  exact hc

/-- The main induction: every instruction of a well-formed trace preserves the inductive invariant, for any `PagerOk` policy with in-bounds victims. -/
theorem runFrom_inv (picks : Nat → MMU → MMU × Nat)
    (hpicks : ∀ k t, PagerOk t ((picks k t).1) ∧ (0 < t.numFrames → (picks k t).2 < t.numFrames)) :
    ∀ (l : List Instr) (b : Bool) (k : Nat) (s : MMU),
      Inv s → (b = true → CurOk s) → OkSeq b l → (∀ i ∈ l, WfInstr s.numProcs i) →
      Inv (runFrom picks k s l) := by
  intro l
  induction l with
  | nil =>
    intro b k s hInv _ _ _
    exact hInv
  | cons i rest ih =>
    intro b k s hInv hbc hseq hwf
    have hpk : ∀ t, PagerOk t ((picks k t).1) ∧ (0 < t.numFrames → (picks k t).2 < t.numFrames) :=
      hpicks k
    have hpkP : ∀ t, PagerOk t ((picks k t).1) := fun t => (hpk t).1
    obtain ⟨c1, c2, c3, c4⟩ := stepInstr_counters (picks k) s i hpkP
    have hnp' : (stepInstr (picks k) s i).1.numProcs = s.numProcs := c4
    have hwfrest : ∀ j ∈ rest, WfInstr (stepInstr (picks k) s i).1.numProcs j := by
      intro j hj
      rw [hnp']
      exact hwf j (by simp [hj])
    have hInv0 : Inv { s with instCount := s.instCount + 1 } :=
      inv_of_sameMap ⟨rfl, rfl, rfl, rfl, fun _ _ => ⟨rfl, rfl⟩⟩ hInv
    cases i with
    | ctx p =>
      have hwfi : 0 ≤ p ∧ p.toNat < s.numProcs := hwf (Instr.ctx p) (by simp)
      have hres : (stepInstr (picks k) s (Instr.ctx p)).1
          = { contextSwitch { s with instCount := s.instCount + 1 } p with
              wsCount := (contextSwitch { s with instCount := s.instCount + 1 } p).wsCount + 1 } := rfl
      have hInv' : Inv (stepInstr (picks k) s (Instr.ctx p)).1 := by
        rw [hres]
        exact inv_of_sameMap ⟨rfl, rfl, rfl, rfl, fun _ _ => ⟨rfl, rfl⟩⟩
          (inv_of_sameMap (contextSwitch_sameMap _ p) hInv0)
      have hcur' : CurOk (stepInstr (picks k) s (Instr.ctx p)).1 := by
        unfold CurOk
        rw [hnp']
        rw [hres]
        have hcp : (contextSwitch { s with instCount := s.instCount + 1 } p).curPid = p :=
          (contextSwitch_fields _ p).2.2.2.2
        show 0 ≤ (contextSwitch { s with instCount := s.instCount + 1 } p).curPid ∧
          (contextSwitch { s with instCount := s.instCount + 1 } p).curPid.toNat < s.numProcs
        rw [hcp]
        exact hwfi
      exact ih true (k + 1) _ hInv' (fun _ => hcur') hseq hwfrest
    | read v =>
      obtain ⟨hb, hseq'⟩ := hseq
      have hcurS : CurOk s := hbc hb
      have hcur0 : CurOk { s with instCount := s.instCount + 1 } :=
        curOk_of rfl rfl hcurS
      have hInvA : Inv (handleMemoryAccess (picks k)
          { s with instCount := s.instCount + 1 } v false).1 :=
        handleMemoryAccess_inv (picks k) hpk _ v false hcur0 hInv0
      have hres : (stepInstr (picks k) s (Instr.read v)).1
          = { (handleMemoryAccess (picks k) { s with instCount := s.instCount + 1 } v false).1 with
              wsCount := (handleMemoryAccess (picks k)
                { s with instCount := s.instCount + 1 } v false).1.wsCount + 1 } := rfl
      have hInv' : Inv (stepInstr (picks k) s (Instr.read v)).1 := by
        rw [hres]
        exact inv_of_sameMap ⟨rfl, rfl, rfl, rfl, fun _ _ => ⟨rfl, rfl⟩⟩ hInvA
      have hcur' : CurOk (stepInstr (picks k) s (Instr.read v)).1 := by
        refine curOk_of ?_ hnp' hcurS
        rw [hres]
        show (handleMemoryAccess (picks k)
          { s with instCount := s.instCount + 1 } v false).1.curPid = s.curPid
        rw [(handleMemoryAccess_fields (picks k) _ v false hpkP).2.2.1]
      exact ih b (k + 1) _ hInv' (fun _ => hcur') hseq' hwfrest
    | write v =>
      obtain ⟨hb, hseq'⟩ := hseq
      have hcurS : CurOk s := hbc hb
      have hcur0 : CurOk { s with instCount := s.instCount + 1 } :=
        curOk_of rfl rfl hcurS
      have hInvA : Inv (handleMemoryAccess (picks k)
          { s with instCount := s.instCount + 1 } v true).1 :=
        handleMemoryAccess_inv (picks k) hpk _ v true hcur0 hInv0
      have hres : (stepInstr (picks k) s (Instr.write v)).1
          = { (handleMemoryAccess (picks k) { s with instCount := s.instCount + 1 } v true).1 with
              wsCount := (handleMemoryAccess (picks k)
                { s with instCount := s.instCount + 1 } v true).1.wsCount + 1 } := rfl
      have hInv' : Inv (stepInstr (picks k) s (Instr.write v)).1 := by
        rw [hres]
        exact inv_of_sameMap ⟨rfl, rfl, rfl, rfl, fun _ _ => ⟨rfl, rfl⟩⟩ hInvA
      have hcur' : CurOk (stepInstr (picks k) s (Instr.write v)).1 := by
        refine curOk_of ?_ hnp' hcurS
        rw [hres]
        show (handleMemoryAccess (picks k)
          { s with instCount := s.instCount + 1 } v true).1.curPid = s.curPid
        rw [(handleMemoryAccess_fields (picks k) _ v true hpkP).2.2.1]
      exact ih b (k + 1) _ hInv' (fun _ => hcur') hseq' hwfrest
    | exitp p =>
      have hwfi : 0 ≤ p ∧ p.toNat < s.numProcs := hwf (Instr.exitp p) (by simp)
      have hInvE : Inv (exitCore { s with instCount := s.instCount + 1 } p).1 :=
        exitCore_inv _ p hwfi.2 hInv0
      have hres : (stepInstr (picks k) s (Instr.exitp p)).1
          = { (exitCore { s with instCount := s.instCount + 1 } p).1 with
              wsCount := (exitCore { s with instCount := s.instCount + 1 } p).1.wsCount + 1 } := rfl
      have hInv' : Inv (stepInstr (picks k) s (Instr.exitp p)).1 := by
        rw [hres]
        exact inv_of_sameMap ⟨rfl, rfl, rfl, rfl, fun _ _ => ⟨rfl, rfl⟩⟩ hInvE
      have hcur' : b = true → CurOk (stepInstr (picks k) s (Instr.exitp p)).1 := by
        intro hb
        refine curOk_of ?_ hnp' (hbc hb)
        rw [hres]
        show (exitCore { s with instCount := s.instCount + 1 } p).1.curPid = s.curPid
        rw [(exitCore_fields _ p).2.2.1]
      exact ih b (k + 1) _ hInv' hcur' hseq hwfrest


/-- A prefix of an access-safe trace is access-safe. -/
theorem okSeq_take {l : List Instr} :
    ∀ (b : Bool) (k : Nat), OkSeq b l → OkSeq b (l.take k) := by
  induction l with
  | nil => intro b k _; cases k <;> trivial
  | cons i rest ih =>
    intro b k hseq
    cases k with
    | zero => trivial
    | succ k =>
      cases i with
      | ctx p => exact ih true k hseq
      | read v => exact ⟨hseq.1, ih b k hseq.2⟩
      | write v => exact ⟨hseq.1, ih b k hseq.2⟩
      | exitp p => exact ih b k hseq

/-- The initial machine satisfies the inductive invariant. -/
theorem initMMU_inv (nf np : Nat) (vmaOf : Nat → List VMA)
    (hnf : 0 < nf) (hnf2 : nf ≤ 128) : Inv (initMMU nf np vmaOf) := by
  have hnopte : ∀ p v f, ¬ MapsTo (initMMU nf np vmaOf) p v f := by
    intro p v f hm
    obtain ⟨_, _, hpres, _⟩ := hm
    have h1 : (((initMMU nf np vmaOf).procs p).pageTable v).present = false := rfl
    rw [hpres] at h1
    exact Bool.noConfusion h1
  refine ⟨?_, ?_, ?_, ?_, ?_, hnf, hnf2⟩
  · intro f _
    constructor
    · intro ho
      exact absurd ho (by simp [initMMU, FTE.empty])
    · rintro ⟨p, v, hm⟩
      exact absurd hm (hnopte p v f)
  · intro p v p1 v1 f hm
    exact absurd hm (hnopte p v f)
  · intro f _ ho
    exact absurd ho (by simp [initMMU, FTE.empty])
  · intro p v f hm
    exact absurd hm (hnopte p v f)
  · intro f hf
    exact List.mem_range.mp hf

/-- The inductive invariant implies the specification's reverse-map invariant: occupancy holds iff exactly one (process, vpage) maps the frame. -/
theorem revMapInv_of_inv {s : MMU} (h : Inv s) : RevMapInv s := by
  obtain ⟨hOcc, hUniq, _, _, _, _⟩ := h
  intro f hf
  constructor
  · intro ho
    obtain ⟨p, v, hm⟩ := (hOcc f hf).mp ho
    refine ⟨(p, v), hm, ?_⟩
    intro pv hm1
    have := hUniq pv.1 pv.2 p v f hm1 hm
    exact Prod.ext this.1 this.2
  · rintro ⟨pv, hm, _⟩
    exact (hOcc f hf).mpr ⟨pv.1, pv.2, hm⟩

/-- C2: at every quiescent point between instructions of a well-formed trace - i.e. after running any prefix from the initial machine, for any select-victim policy that only touches referenced bits and last-used slots and returns in-bounds victims - a frame-table entry is occupied if and only if exactly one (process, vpage) PTE is present with its frame field equal to that frame's index; memory accesses, page faults with eviction, and process exits all preserve this. -/
theorem c2_reverse_map_invariant (nf np : Nat) (vmaOf : Nat → List VMA)
    (picks : Nat → MMU → MMU × Nat)
    (hnf : 0 < nf) (hnf2 : nf ≤ 128)
    (hpicks : ∀ k t, PagerOk t ((picks k t).1) ∧
      (0 < t.numFrames → (picks k t).2 < t.numFrames))
    (l : List Instr) (hwf : ∀ i ∈ l, WfInstr np i) (hseq : OkSeq false l) (k : Nat) :
    RevMapInv (runFrom picks 0 (initMMU nf np vmaOf) (l.take k)) := by
  refine revMapInv_of_inv (runFrom_inv picks hpicks (l.take k) false 0 _
    (initMMU_inv nf np vmaOf hnf hnf2) (fun h => absurd h (by simp))
    (okSeq_take false k hseq) ?_)
  intro i hi
  exact hwf i (List.mem_of_mem_take hi)

/-- Witness: the reverse-map invariant holds after a concrete three-instruction trace (context switch, write causing a page fault and mapping, process exit) on a one-frame, one-process machine. -/
theorem c2_witness :
    RevMapInv (runFrom (fun _ t => (t, 0)) 0
      (initMMU 1 1 (fun _ => [⟨0, 3, false, false⟩]))
      ([Instr.ctx 0, Instr.write 0, Instr.exitp 0].take 3)) := by
  refine c2_reverse_map_invariant 1 1 _ _ (by decide) (by decide)
    (fun k t => ⟨pagerOk_refl t, fun h => h⟩) _ ?_ ?_ 3
  · intro i hi
    simp only [List.mem_cons, List.not_mem_nil, or_false] at hi
    rcases hi with h | h | h <;> subst h
    · exact ⟨le_refl 0, by decide⟩
    · trivial
    · exact ⟨le_refl 0, by decide⟩
  · exact ⟨rfl, trivial⟩

end Meepo
